import Mathlib

/-!
Verification development for the AMP-Media mini highlight pipeline.

The Python sources under `mini/` are shallowly embedded below: Python floats
are modelled as exact rationals (`ℚ`), Python `round(x, d)` as round-half-up
on rationals, Python dicts as association lists or total functions, Python
sets as `Finset`, and the fallible render-graph builder as `Except`.
Definitions follow `mini/edl.py`, `mini/analysis/combine.py`,
`mini/analysis/types.py`, `mini/selection/select.py` and
`mini/render/ffmpeg_cmd.py`.
-/

namespace AMP

/-- Model of Python `round(x, d)` on exact rationals: round to `d` decimal
places, halves rounding up (`round` on `ℚ` is `⌊x + 1/2⌋`). -/
def pround (d : ℕ) (x : ℚ) : ℚ := (round (x * 10 ^ d) : ℤ) / 10 ^ d

lemma pround3_le (x : ℚ) : pround 3 x ≤ x + 1 / 2000 := by
  have h : (round (x * 10 ^ 3) : ℚ) ≤ x * 10 ^ 3 + 1 / 2 := by
    rw [round_eq]
    have := Int.floor_le (x * 10 ^ 3 + 1 / 2)
    push_cast at this ⊢
    linarith
  have h1000 : (0 : ℚ) < 10 ^ 3 := by norm_num
  rw [pround, div_le_iff₀ h1000]
  nlinarith [h]

lemma lt_pround3 (x : ℚ) : x - 1 / 2000 < pround 3 x := by
  have h : x * 10 ^ 3 - 1 / 2 < (round (x * 10 ^ 3) : ℚ) := by
    rw [round_eq]
    have := Int.sub_one_lt_floor (x * 10 ^ 3 + 1 / 2)
    push_cast at this ⊢
    linarith
  have h1000 : (0 : ℚ) < 10 ^ 3 := by norm_num
  rw [pround, lt_div_iff₀ h1000]
  nlinarith [h]

lemma pround3_mono {x y : ℚ} (h : x ≤ y) : pround 3 x ≤ pround 3 y := by
  have hr : round (x * 10 ^ 3) ≤ round (y * 10 ^ 3) := by
    rw [round_eq, round_eq]
    exact Int.floor_mono (by nlinarith)
  have hc : (round (x * 10 ^ 3) : ℚ) ≤ (round (y * 10 ^ 3) : ℚ) := by
    exact_mod_cast hr
  have h1000 : (0 : ℚ) ≤ 10 ^ 3 := by norm_num
  rw [pround, pround]
  exact div_le_div_of_nonneg_right hc (by norm_num)

/-- A rational lying on the millisecond grid (every value `round(·, 3)`
produces, hence every accepted segment endpoint). -/
def onGrid (x : ℚ) : Prop := ∃ n : ℤ, x = n / 1000

lemma pround3_onGrid (x : ℚ) : onGrid (pround 3 x) :=
  ⟨round (x * 10 ^ 3), by rw [pround]; norm_num⟩

lemma onGrid_min {x y : ℚ} (hx : onGrid x) (hy : onGrid y) : onGrid (min x y) := by
  rcases le_total x y with h | h
  · rwa [min_eq_left h]
  · rwa [min_eq_right h]

lemma onGrid_max {x y : ℚ} (hx : onGrid x) (hy : onGrid y) : onGrid (max x y) := by
  rcases le_total x y with h | h
  · rwa [max_eq_right h]
  · rwa [max_eq_left h]

lemma onGrid_sub {x y : ℚ} (hx : onGrid x) (hy : onGrid y) : onGrid (x - y) := by
  obtain ⟨n, hn⟩ := hx
  obtain ⟨m, hm⟩ := hy
  exact ⟨n - m, by rw [hn, hm]; push_cast; ring⟩

lemma onGrid_le_of_lt {x : ℚ} (hx : onGrid x) (h : x < 1 / 4 + 1 / 1000) :
    x ≤ 1 / 4 := by
  obtain ⟨n, hn⟩ := hx
  subst hn
  have hn251 : (n : ℚ) < 251 := by linarith
  have : n < 251 := by exact_mod_cast hn251
  have : n ≤ 250 := by omega
  have : (n : ℚ) ≤ 250 := by exact_mod_cast this
  linarith

/-- Stable insertion of `x` into `l`: `x` is placed before the first element
`y` with `lt x y`, so elements comparing equal keep their relative order.
Together with `stableSort` this models Python's stable `list.sort`. -/
def insertStable (lt : α → α → Bool) (x : α) : List α → List α
  | [] => [x]
  | y :: ys => if lt x y then x :: y :: ys else y :: insertStable lt x ys

/-- Stable sort by repeated stable insertion (models Python `list.sort`). -/
def stableSort (lt : α → α → Bool) (l : List α) : List α :=
  l.foldl (fun acc x => insertStable lt x acc) []

lemma insertStable_mem {lt : α → α → Bool} {x a : α} :
    ∀ {l : List α}, a ∈ insertStable lt x l ↔ a = x ∨ a ∈ l := by
  intro l
  induction l with
  | nil => simp [insertStable]
  | cons y ys ih =>
    by_cases h : lt x y
    · simp [insertStable, h]
    · simp [insertStable, h, ih]
      tauto

lemma stableSort_foldl_mem {lt : α → α → Bool} {a : α} :
    ∀ (l acc : List α),
      (a ∈ l.foldl (fun acc x => insertStable lt x acc) acc ↔ a ∈ acc ∨ a ∈ l) := by
  intro l
  induction l with
  | nil => simp
  | cons x xs ih =>
    intro acc
    rw [List.foldl_cons, ih]
    simp [insertStable_mem]
    tauto

lemma stableSort_mem {lt : α → α → Bool} {a : α} {l : List α} :
    a ∈ stableSort lt l ↔ a ∈ l := by
  rw [stableSort, stableSort_foldl_mem]
  simp

lemma insertStable_sorted (f : α → ℚ) (x : α) :
    ∀ {l : List α}, l.Pairwise (fun a b => f b ≤ f a) →
      (insertStable (fun a b => decide (f b < f a)) x l).Pairwise
        (fun a b => f b ≤ f a) := by
  intro l
  induction l with
  | nil => intro _; simp [insertStable]
  | cons y ys ih =>
    intro h
    rw [List.pairwise_cons] at h
    obtain ⟨hy, hys⟩ := h
    by_cases hlt : f y < f x
    · simp only [insertStable, decide_eq_true_eq, if_pos hlt]
      refine List.Pairwise.cons ?_ (List.Pairwise.cons hy hys)
      intro b hb
      rcases List.mem_cons.mp hb with rfl | hb
      · exact hlt.le
      · exact (hy b hb).trans hlt.le
    · simp only [insertStable, decide_eq_true_eq, if_neg hlt]
      refine List.Pairwise.cons ?_ (ih hys)
      intro b hb
      rcases insertStable_mem.mp hb with rfl | hb
      · exact le_of_not_lt hlt
      · exact hy b hb

lemma stableSort_sorted (f : α → ℚ) (l : List α) :
    (stableSort (fun a b => decide (f b < f a)) l).Pairwise
      (fun a b => f b ≤ f a) := by
  rw [stableSort]
  have : ∀ (l acc : List α), acc.Pairwise (fun a b => f b ≤ f a) →
      (l.foldl (fun acc x => insertStable (fun a b => decide (f b < f a)) x acc)
        acc).Pairwise (fun a b => f b ≤ f a) := by
    intro l
    induction l with
    | nil => intro acc h; simpa using h
    | cons x xs ih =>
      intro acc h
      rw [List.foldl_cons]
      exact ih _ (insertStable_sorted f x h)
  exact this l [] (by simp)

/-! ### Data model (`mini/edl.py`, `mini/analysis/types.py`) -/

/-- `mini/analysis/types.py` `DetectionEvent`. -/
structure DetectionEvent where
  time : ℚ
  score : ℚ
  tag : String
deriving DecidableEq

/-- `mini/analysis/types.py` `CandidateClip`.  `stop` embeds the Python field
`end` (a Lean keyword); Python's `Set[str]` tags become a `Finset`. -/
structure CandidateClip where
  src : String
  start : ℚ
  stop : ℚ
  score : ℚ
  tags : Finset String
  camera : Option String
deriving DecidableEq

/-- `CandidateClip.duration`: `max(0.0, self.end - self.start)`. -/
def CandidateClip.duration (c : CandidateClip) : ℚ := max 0 (c.stop - c.start)

/-- `mini/edl.py` `DiversitySettings`.  The field `max_per_cam_share` embeds
the Python field `max_per_cam_ratio`. -/
structure DiversitySettings where
  min_gap_same_cam : ℚ
  max_per_cam_share : ℚ
deriving DecidableEq

/-- `mini/edl.py` `BrandingSettings` (fields not used by any claim are kept
with their source defaults omitted; intro/outro/LUT/fonts never feed the
render-graph compiler). -/
structure BrandingSettings where
  logo_path : Option String
  logo_corner : String
  logo_size_px : ℕ
  safe_area : ℚ
deriving DecidableEq

/-- `mini/edl.py` `Config`.  `weights` is the Python dict as an association
list; `target_range` is the Python sequence. -/
structure Config where
  project : String
  variant : String
  seed : ℕ
  max_duration : ℚ
  clip_min : ℚ
  clip_max : ℚ
  target_range : List ℚ
  weights : List (String × ℚ)
  diversity : DiversitySettings
  branding : BrandingSettings
  deliverables : List String
deriving DecidableEq

/-- `mini/edl.py` `DEFAULT_WEIGHTS`. -/
def DEFAULT_WEIGHTS : List (String × ℚ) :=
  [("audio_peak", 2/5), ("motion", 3/10), ("faces", 1/5),
   ("scene_novelty", 2/25), ("brightness_flash", 1/50)]

/-- `mini/edl.py` `VALID_DELIVERABLES`. -/
def VALID_DELIVERABLES : List String := ["9:16", "1:1", "16:9"]

/-- `mini/edl.py` `_validate_weights` as a boolean check (the Python version
raises; `false` models the raise). -/
def validate_weights (weights : List (String × ℚ)) : Bool :=
  (!weights.isEmpty)
    && decide (|(weights.map Prod.snd).sum - 1| < 1 / 1000000)
    && weights.all (fun p => (DEFAULT_WEIGHTS.map Prod.fst).contains p.1)

/-- `mini/edl.py` `Config.validate` as a boolean check (`false` models a
raised `ValueError`). -/
def Config.validate (c : Config) : Bool :=
  validate_weights c.weights
    && decide (0 < c.clip_min) && decide (0 < c.clip_max)
    && decide (c.clip_min ≤ c.clip_max)
    && (match c.target_range with
        | [a, b] => decide (a ≤ b)
        | _ => false)
    && decide (0 < c.diversity.max_per_cam_share)
    && decide (c.diversity.max_per_cam_share ≤ 1)
    && decide (0 < c.branding.safe_area) && decide (c.branding.safe_area ≤ 1)
    && c.deliverables.all (fun d => VALID_DELIVERABLES.contains d)

/-- `mini/edl.py` `Segment`.  `stop` embeds the Python field `end`; `tags`
is the stored tuple of tag strings. -/
structure Segment where
  src : String
  start : ℚ
  stop : ℚ
  score : ℚ
  tags : List String
  camera : Option String
deriving DecidableEq

/-- `Segment.duration`: `max(0.0, self.end - self.start)`. -/
def Segment.duration (s : Segment) : ℚ := max 0 (s.stop - s.start)

/-- Values stored in the `EDL.metadata` dict (the selector stores a list of
rationals under `target_range` and a list of strings under `deliverables`). -/
inductive MetaVal where
  | qs (xs : List ℚ)
  | ss (xs : List String)
deriving DecidableEq

/-- `mini/edl.py` `EDL`. -/
structure EDL where
  project : String
  variant : String
  seed : ℕ
  max_duration : ℚ
  clip_min : ℚ
  clip_max : ℚ
  segments : List Segment
  metadata : List (String × MetaVal)
deriving DecidableEq

/-- `EDL.total_duration`: `sum(seg.duration for seg in self.segments)`. -/
def EDL.total_duration (e : EDL) : ℚ := (e.segments.map Segment.duration).sum

/-! ### Candidate builder (`mini/analysis/combine.py`) -/

/-- `combine.py` `ANCHOR_TAGS`. -/
def ANCHOR_TAGS : List String := ["audio_peak", "motion"]

/-- `weight_lookup.get(other_tag, 0.0)` over the `Config.weights` dict. -/
def weight_of (cfg : Config) (tag : String) : ℚ := ((cfg.weights.lookup tag).getD 0)

/-- `combine.py` `_window_contribution`: the sum of the scores of the events
whose time lies within half the window length of `center`. -/
def window_contribution (center : ℚ) (events : List DetectionEvent) (window : ℚ) : ℚ :=
  ((events.filter (fun ev => |ev.time - center| ≤ window / 2)).map
    DetectionEvent.score).sum

/-- Target window length in `generate_candidates`:
`max(clip_min, min(clip_max, (target_min + target_max) / 2))`.  The Python
code unpacks exactly two entries of `target_range`; validated configs always
have two, and the embedding reads them positionally. -/
def target_len (cfg : Config) : ℚ :=
  max cfg.clip_min (min cfg.clip_max
    ((cfg.target_range.getD 0 0 + cfg.target_range.getD 1 0) / 2))

/-- Window placement of `generate_candidates` steps 1–3: centre a target
window on `t`, clamp to `[0, duration]`, grow symmetrically up to `clip_min`,
then truncate the end to `clip_max`. -/
def window_bounds (cfg : Config) (duration t : ℚ) : ℚ × ℚ :=
  let tl := target_len cfg
  let s0 := max 0 (t - tl / 2)
  let e0 := min duration (s0 + tl)
  let s1 := if e0 - s0 < cfg.clip_min
    then max 0 (s0 - (cfg.clip_min - (e0 - s0)) / 2) else s0
  let e1 := if e0 - s0 < cfg.clip_min
    then min duration (e0 + (cfg.clip_min - (e0 - s0)) / 2) else e0
  let e2 := if cfg.clip_max < e1 - s1 then s1 + cfg.clip_max else e1
  (s1, e2)

/-- The body of the candidate loop of `generate_candidates` for one anchor
event: build the window, accumulate the weighted score and contributing tags,
and discard the candidate when the composite score is `≤ 0` (`none`). -/
def build_candidate (src cam : String) (dur : ℚ)
    (events_by_tag : List (String × List DetectionEvent)) (cfg : Config)
    (tag : String) (ev : DetectionEvent) : Option CandidateClip :=
  let b := window_bounds cfg dur ev.time
  let score := events_by_tag.foldl
    (fun acc p =>
      if 0 < weight_of cfg p.1
      then acc + weight_of cfg p.1 * window_contribution ev.time p.2 (b.2 - b.1)
      else acc) 0
  let tags : Finset String := insert tag
    (((events_by_tag.filter (fun p => 0 < weight_of cfg p.1 ∧
        0 < window_contribution ev.time p.2 (b.2 - b.1))).map Prod.fst).toFinset)
  if score ≤ 0 then none
  else some { src := src, start := pround 3 b.1, stop := pround 3 b.2,
              score := score, tags := tags, camera := some cam }

/-- `combine.py` `_overlaps`: same source and both span ends within the
tolerance (two independent absolute differences). -/
def overlaps_tol (a b : CandidateClip) (tolerance : ℚ) : Bool :=
  decide (a.src = b.src) && decide (|a.start - b.start| ≤ tolerance)
    && decide (|a.stop - b.stop| ≤ tolerance)

/-- The for-loop of `_merge_similar_candidates` over the descending-score
ordering: keep a candidate only when no previously kept candidate overlaps
it within the tolerance. -/
def merge_loop (tolerance : ℚ) : List CandidateClip → List CandidateClip → List CandidateClip
  | acc, [] => acc
  | acc, c :: rest =>
    if acc.any (fun existing => overlaps_tol c existing tolerance)
    then merge_loop tolerance acc rest
    else merge_loop tolerance (acc ++ [c]) rest

/-- `combine.py` `_merge_similar_candidates`. -/
def merge_similar_candidates (candidates : List CandidateClip)
    (tolerance : ℚ := 1/2) : List CandidateClip :=
  merge_loop tolerance []
    (stableSort (fun a b => decide (b.score < a.score)) candidates)

/-- `Path(path).stem`: last path component without its final suffix. -/
def stem_of (path : String) : String :=
  let name := (path.splitOn "/").getLastD path
  let parts := name.splitOn "."
  if parts.length ≤ 1 then name
  else String.intercalate "." parts.dropLast

/-- `combine.py` `_infer_camera_label`: split the stem on the first occurring
delimiter among `_`, `-`, space (in that priority order) and keep the head. -/
def infer_camera_label (path : String) : String :=
  let stem := stem_of path
  if 1 < (stem.splitOn "_").length then (stem.splitOn "_").headD stem
  else if 1 < (stem.splitOn "-").length then (stem.splitOn "-").headD stem
  else if 1 < (stem.splitOn " ").length then (stem.splitOn " ").headD stem
  else stem

/-- The tail of `generate_candidates` once the anchor-tag list is fixed:
return nothing when there are no anchors, otherwise build one candidate per
anchor event, deduplicate, and sort by descending score. -/
def gen_from_anchors (path : String) (probed_duration : ℚ)
    (events_by_tag : List (String × List DetectionEvent)) (cfg : Config)
    (anchors : List String) : List CandidateClip :=
  if anchors.isEmpty then []
  else
    stableSort (fun a b => decide (b.score < a.score))
      (merge_similar_candidates (anchors.flatMap (fun tag =>
        ((events_by_tag.lookup tag).getD []).filterMap
          (build_candidate path (infer_camera_label path) probed_duration
            events_by_tag cfg tag))))

/-- `combine.py` `generate_candidates`.  The duration probe is an external
collaborator; its result is the explicit `probed_duration` argument.
Anchor preference: `audio_peak`/`motion` events when present, otherwise
every tag's events. -/
def generate_candidates (path : String) (probed_duration : ℚ)
    (events_by_tag : List (String × List DetectionEvent)) (cfg : Config) :
    List CandidateClip :=
  if probed_duration ≤ 0 then []
  else
    gen_from_anchors path probed_duration events_by_tag cfg
      (let anchors0 := ANCHOR_TAGS.filter
        (fun t => !((events_by_tag.lookup t).getD []).isEmpty)
       if anchors0.isEmpty then events_by_tag.map Prod.fst else anchors0)

/-! ### Selector (`mini/selection/select.py`) -/

/-- One 64-bit linear congruential step. -/
def lcg_step (s : ℕ) : ℕ :=
  (6364136223846793005 * s + 1442695040888963407) % 18446744073709551616

/-- State of the stream after `i + 1` steps from `seed`. -/
def lcg_state (seed : ℕ) : ℕ → ℕ
  | 0 => lcg_step seed
  | n + 1 => lcg_step (lcg_state seed n)

/-- Modelled from the spec: the selector seeds a pseudo-random generator from
`Config.seed` (`random.Random(config.seed)`, library code outside this
repository) solely to draw one jitter value per candidate.  Only determinism
and the `[0, 1)` range of `random()` matter here, so the stream is modelled
as a 64-bit linear congruential generator of the seed and the draw index. -/
def rngStream (seed : ℕ) (i : ℕ) : ℚ := (lcg_state seed i : ℚ) / 18446744073709551616

/-- Strict comparison for the first sort key of `_order_candidates`:
`(-score, src, start, end)`. -/
def key1Lt (a b : CandidateClip) : Bool :=
  decide (b.score < a.score)
    || (decide (a.score = b.score)
      && (decide (a.src < b.src)
        || (decide (a.src = b.src)
          && (decide (a.start < b.start)
            || (decide (a.start = b.start) && decide (a.stop < b.stop))))))

/-- Strict comparison for the second sort key of `_order_candidates`:
`(-(score + jitter), src, start)` over jittered pairs. -/
def key2Lt (a b : ℚ × CandidateClip) : Bool :=
  decide (b.1 < a.1)
    || (decide (a.1 = b.1)
      && (decide (a.2.src < b.2.src)
        || (decide (a.2.src = b.2.src) && decide (a.2.start < b.2.start))))

/-- `select.py` `_order_candidates`: stable sort by `(-score, src, start,
end)`, add a per-candidate jitter of `rng.random() * 1e-6` in that order, and
stable-sort again by `(-(score + jitter), src, start)`. -/
def order_candidates (candidates : List CandidateClip) (rng : ℕ → ℚ) :
    List CandidateClip :=
  let ordered := stableSort key1Lt candidates
  let jittered := ordered.enum.map
    (fun p => (p.2.score + rng p.1 * (1 / 1000000), p.2))
  (stableSort key2Lt jittered).map Prod.snd

/-- `select.py` `_passes_overlap_check`: no accepted same-source segment may
intersect the candidate for more than the tolerance. -/
def passes_overlap_check (cand : CandidateClip) (selected : List Segment)
    (tolerance : ℚ := 1/4) : Bool :=
  selected.all (fun seg =>
    decide (seg.src = cand.src →
      min seg.stop cand.stop - max seg.start cand.start ≤ tolerance))

/-- `cand.camera or "unknown"` (`None` and the empty string are falsy). -/
def cam_label : Option String → String
  | none => "unknown"
  | some s => if s = "" then "unknown" else s

/-- `tuple(sorted(cand.tags))`. -/
def sorted_tags (t : Finset String) : List String := t.sort (· ≤ ·)

/-- The mutable selection-loop state of `select_segments`:
`selected`, `total_duration`, `camera_usage` (a float defaultdict) and
`last_camera_time`. -/
structure SelState where
  selected : List Segment
  total : ℚ
  camUsage : String → ℚ
  lastCamTime : String → Option ℚ

/-- `last_time is not None and abs(cand.start - last_time) < min_gap`. -/
def gap_hit (lastT : Option ℚ) (start gap : ℚ) : Bool :=
  match lastT with
  | none => false
  | some t => decide (|start - t| < gap)

/-- Acceptance step of `select_segments`: append the rounded `Segment` and
update the running totals. -/
def accept_segment (cand : CandidateClip) (camera : String) (cand_end : ℚ)
    (st : SelState) : SelState :=
  let seg : Segment :=
    { src := cand.src, start := pround 3 cand.start, stop := pround 3 cand_end,
      score := cand.score, tags := sorted_tags cand.tags, camera := some camera }
  { selected := st.selected ++ [seg]
    total := st.total + seg.duration
    camUsage := fun c => if c = camera then st.camUsage c + seg.duration else st.camUsage c
    lastCamTime := fun c => if c = camera then some seg.start else st.lastCamTime c }

/-- After an acceptance the loop stops once
`total_duration >= max_duration - 0.01`. -/
def after_accept (cfg : Config) (st : SelState) : SelState × Bool :=
  (st, decide (st.total < cfg.max_duration - 1 / 100))

/-- One iteration of the selection loop for one candidate.  The boolean is
`true` when the loop continues with the next candidate and `false` on the two
`break` paths (remaining budget below `clip_min`, or the post-acceptance
duration stop). -/
def sel_step (cfg : Config) (st : SelState) (cand : CandidateClip) :
    SelState × Bool :=
  if cand.duration < cfg.clip_min ∨ cfg.clip_max < cand.duration then (st, true)
  else if passes_overlap_check cand st.selected = false then (st, true)
  else if cfg.diversity.max_per_cam_share * cfg.max_duration + 1 / 1000000 <
      st.camUsage (cam_label cand.camera) + cand.duration then (st, true)
  else if gap_hit (st.lastCamTime (cam_label cand.camera)) cand.start
      cfg.diversity.min_gap_same_cam then (st, true)
  else if cfg.max_duration < st.total + cand.duration then
    (if cfg.max_duration - st.total < cfg.clip_min then (st, false)
     else after_accept cfg (accept_segment cand (cam_label cand.camera)
       (cand.start + min cand.duration
         (min (cfg.max_duration - st.total) cfg.clip_max)) st))
  else after_accept cfg (accept_segment cand (cam_label cand.camera) cand.stop st)

/-- The candidate loop of `select_segments`. -/
def sel_loop (cfg : Config) : SelState → List CandidateClip → SelState
  | st, [] => st
  | st, c :: rest =>
    let r := sel_step cfg st c
    if r.2 then sel_loop cfg r.1 rest else r.1

/-- The metrics record returned alongside the EDL. -/
structure Metrics where
  total_candidates : ℕ
  selected_segments : ℕ
  selected_duration : ℚ
deriving DecidableEq

/-- The metadata dict both EDL constructions store. -/
def edl_metadata (cfg : Config) : List (String × MetaVal) :=
  [("target_range", MetaVal.qs cfg.target_range),
   ("deliverables", MetaVal.ss cfg.deliverables)]

/-- `select.py` `_empty_edl`. -/
def empty_edl (cfg : Config) : EDL :=
  { project := cfg.project, variant := cfg.variant, seed := cfg.seed,
    max_duration := cfg.max_duration, clip_min := cfg.clip_min,
    clip_max := cfg.clip_max, segments := [], metadata := edl_metadata cfg }

/-- `select.py` `select_segments`. -/
def select_segments (candidates_by_src : List (String × List CandidateClip))
    (config : Config) : EDL × Metrics :=
  let all_candidates := (candidates_by_src.map Prod.snd).flatten
  if all_candidates.isEmpty then
    (empty_edl config, ⟨0, 0, 0⟩)
  else
    let ordered := order_candidates all_candidates (rngStream config.seed)
    let final := sel_loop config ⟨[], 0, fun _ => 0, fun _ => none⟩ ordered
    ({ project := config.project, variant := config.variant, seed := config.seed,
       max_duration := config.max_duration, clip_min := config.clip_min,
       clip_max := config.clip_max, segments := final.selected,
       metadata := edl_metadata config },
     ⟨all_candidates.length, final.selected.length, pround 3 final.total⟩)

/-! ### Serialization (`mini/edl.py` `EDL.to_dict` / `edl_from_dict`)

The JSON-equivalent dict of one segment.  `Option` marks keys that
`edl_from_dict` defaults when absent (`seg.get(..., default)`); `to_dict`
always emits them.  `in_`/`out` are the dict keys `"in"`/`"out"` (`in` is a
Lean keyword); the legacy alternate keys `"start"`/`"end"` accepted by
`edl_from_dict` fall back to the same 0.0 default and are subsumed by the
`in_`/`out` fields here. -/
structure SegDict where
  src : String
  in_ : Option ℚ
  out : Option ℚ
  score : Option ℚ
  tags : Option (List String)
  cam : Option String
deriving DecidableEq

/-- The serialized form of one segment inside `EDL.to_dict`: timestamps
rounded to 3 decimals, score to 4, tags emitted as `list(seg.tags)`. -/
def seg_to_dict (s : Segment) : SegDict :=
  { src := s.src, in_ := some (pround 3 s.start), out := some (pround 3 s.stop),
    score := some (pround 4 s.score), tags := some s.tags, cam := s.camera }

/-- The JSON-equivalent dict of a whole EDL.  `metadata = none` models the
key being left out (Python omits it when the metadata dict is falsy). -/
structure EDLDict where
  project : String
  variant : String
  seed : ℕ
  max_duration : ℚ
  clip_min : ℚ
  clip_max : ℚ
  segments : List SegDict
  metadata : Option (List (String × MetaVal))
deriving DecidableEq

/-- `mini/edl.py` `EDL.to_dict`. -/
def EDL.to_dict (e : EDL) : EDLDict :=
  { project := e.project, variant := e.variant, seed := e.seed,
    max_duration := e.max_duration, clip_min := e.clip_min,
    clip_max := e.clip_max, segments := e.segments.map seg_to_dict,
    metadata := if e.metadata = [] then none else some e.metadata }

/-- Per-segment part of `edl_from_dict`: span fields default to `0.0`,
score to `0.0`, tags to the empty tuple. -/
def seg_from_dict (s : SegDict) : Segment :=
  { src := s.src, start := s.in_.getD 0, stop := s.out.getD 0,
    score := (s.score).getD 0, tags := (s.tags).getD [], camera := s.cam }

/-- `mini/edl.py` `edl_from_dict`. -/
def edl_from_dict (d : EDLDict) : EDL :=
  { project := d.project, variant := d.variant, seed := d.seed,
    max_duration := d.max_duration, clip_min := d.clip_min,
    clip_max := d.clip_max, segments := d.segments.map seg_from_dict,
    metadata := d.metadata.getD [] }

/-! ### Render-graph compiler (`mini/render/ffmpeg_cmd.py`) -/

/-- The per-segment payload `_build_single_command` hands to
`build_filter_complex` (`{"src_index", "in", "out"}`). -/
structure SegPayload where
  src_index : ℕ
  in_ : ℚ
  out : ℚ
deriving DecidableEq

/-- One line of the `filter_complex` graph, structured by the filter it
applies.  Each constructor corresponds to one `lines.append(...)` f-string of
`build_filter_complex`; the textual join with `";"` carries no further
information. -/
inductive FilterLine where
  /-- `[{idx}:v]setsar=1[{base_v}]` -/
  | setsar (input : ℕ) (label : String)
  /-- `[{base_v}]split={count}[...labels]` -/
  | split (input : String) (outs : List String)
  /-- `[{idx}:a]aresample=48000,aformat=channel_layouts=stereo[{base_a}]` -/
  | aresample (input : ℕ) (label : String)
  /-- `[{base_a}]asplit={count}[...labels]` -/
  | asplit (input : String) (outs : List String)
  /-- `[{v_branch}]trim=start={s}:end={e},setpts=PTS-STARTPTS[{label}]` -/
  | vtrim (input : String) (start stop : ℚ) (label : String)
  /-- `[{trim_label}]{scale_expr},setsar=1[v{idx}]` -/
  | vscale (input : String) (width height : ℕ) (label : String)
  /-- `[{a_branch}]atrim=start={s}:end={e},asetpts=PTS-STARTPTS[{label}]` -/
  | atrim (input : String) (start stop : ℚ) (label : String)
  /-- `anullsrc=r=48000:cl=stereo,atrim=duration={d},asetpts=PTS-STARTPTS[{label}]` -/
  | silence (duration : ℚ) (label : String)
  /-- `{pairs}concat=n={n}:v=1:a=1[vcat][acat]` -/
  | concat (pairs : List (String × String)) (n : ℕ) (vout aout : String)
  /-- `[vcat][{logo_idx}]overlay=x=..:y=..:format=auto[vo]`, with the
  position determined by the clamped safe-area margin and the corner. -/
  | overlay (input : String) (logoIdx : ℕ) (margin : ℚ) (corner : String)
      (label : String)
  /-- `{video_out}format=yuv420p[vout]` -/
  | format (input : String) (label : String)
  /-- `[acat]loudnorm=I=-14:TP=-1.0:LRA=11[aout]` -/
  | loudnorm (input : String) (label : String)
  /-- `[acat]anorm=2[aout]` -/
  | anorm (input : String) (label : String)
deriving DecidableEq

/-- `Counter(int(seg["src_index"]) for seg in segments)[idx]`. -/
def usage_count (segments : List SegPayload) (idx : ℕ) : ℕ :=
  (segments.filter (fun s => s.src_index = idx)).length

/-- Labels `v{idx}b{0..count-1}` of a video split. -/
def vsplit_labels (idx count : ℕ) : List String :=
  (List.range count).map (fun n => "v" ++ toString idx ++ "b" ++ toString n)

/-- Labels `a{idx}b{0..count-1}` of an audio split. -/
def asplit_labels (idx count : ℕ) : List String :=
  (List.range count).map (fun n => "a" ++ toString idx ++ "b" ++ toString n)

/-- The `video_branches` dict: only indices in `range(inputs_count)` with a
positive usage count get branches; a single use reuses the base label. -/
def vbranches (counts : ℕ → ℕ) (inputs_count idx : ℕ) : List String :=
  if idx < inputs_count ∧ 0 < counts idx then
    (if 1 < counts idx then vsplit_labels idx (counts idx)
     else ["v" ++ toString idx ++ "base"])
  else []

/-- The `audio_branches` dict: as `video_branches`, but empty when the source
has no audio stream. -/
def abranches (audio_flags : ℕ → Bool) (counts : ℕ → ℕ) (inputs_count idx : ℕ) :
    List String :=
  if idx < inputs_count ∧ 0 < counts idx ∧ audio_flags idx = true then
    (if 1 < counts idx then asplit_labels idx (counts idx)
     else ["a" ++ toString idx ++ "base"])
  else []

/-- The first loop of `build_filter_complex` over `range(inputs_count)`:
normalize each used source and split it when used more than once. -/
def input_lines (audio_flags : ℕ → Bool) (counts : ℕ → ℕ) (inputs_count : ℕ) :
    List FilterLine :=
  (List.range inputs_count).flatMap (fun idx =>
    if counts idx = 0 then []
    else
      [FilterLine.setsar idx ("v" ++ toString idx ++ "base")]
      ++ (if 1 < counts idx then
            [FilterLine.split ("v" ++ toString idx ++ "base")
              (vsplit_labels idx (counts idx))]
          else [])
      ++ (if audio_flags idx then
            [FilterLine.aresample idx ("a" ++ toString idx ++ "base")]
            ++ (if 1 < counts idx then
                  [FilterLine.asplit ("a" ++ toString idx ++ "base")
                    (asplit_labels idx (counts idx))]
                else [])
          else []))

/-- Pointwise increment of a cursor dict. -/
def bump (f : ℕ → ℕ) (k : ℕ) : ℕ → ℕ := fun x => if x = k then f x + 1 else f x

/-- Audio part of one segment iteration: trim the next audio branch, or
synthesize silence, or fail when synthesis is disabled. -/
def seg_audio (aflag : Bool) (synth : Bool) (branches : List String)
    (cursor : ℕ) (src_idx : ℕ) (start stop dur : ℚ) (i : ℕ) :
    Except String (List FilterLine) :=
  if aflag then
    if branches = [] then
      Except.error ("No audio branches for input " ++ toString src_idx)
    else
      match branches.get? cursor with
      | none => Except.error "audio branch index out of range"
      | some abr =>
        Except.ok [FilterLine.atrim abr start stop ("a" ++ toString i)]
  else if synth then
    Except.ok [FilterLine.silence dur ("a" ++ toString i)]
  else
    Except.error ("Input " ++ toString src_idx
      ++ " has no audio and silence synthesis disabled")

/-- The `for idx, seg in enumerate(segments)` loop of `build_filter_complex`:
trim each segment's next video (and audio) branch, scale/pad it, and collect
the `[v{i}][a{i}]` concat inputs.  `i` is the running enumeration index and
`cv`/`ca` the branch cursors. -/
def seg_loop (w h : ℕ) (audio_flags : ℕ → Bool) (synth : Bool)
    (vB aB : ℕ → List String) :
    List SegPayload → ℕ → (ℕ → ℕ) → (ℕ → ℕ) →
      Except String (List FilterLine × List (String × String))
  | [], _, _, _ => Except.ok ([], [])
  | seg :: rest, i, cv, ca =>
    let src_idx := seg.src_index
    let start := seg.in_
    let stop := if seg.out < seg.in_ then seg.in_ else seg.out
    let dur := max 0 (stop - start)
    if vB src_idx = [] then
      Except.error ("No video branches for input " ++ toString src_idx)
    else
      match (vB src_idx).get? (cv src_idx) with
      | none => Except.error "video branch index out of range"
      | some vbr =>
        match seg_audio (audio_flags src_idx) synth (aB src_idx) (ca src_idx)
            src_idx start stop dur i with
        | Except.error e => Except.error e
        | Except.ok alines =>
          match seg_loop w h audio_flags synth vB aB rest (i + 1)
              (bump cv src_idx)
              (if audio_flags src_idx then bump ca src_idx else ca) with
          | Except.error e => Except.error e
          | Except.ok (ls, ps) =>
            Except.ok
              ([FilterLine.vtrim vbr start stop ("vtrim" ++ toString i),
                FilterLine.vscale ("vtrim" ++ toString i) w h
                  ("v" ++ toString i)]
               ++ alines ++ ls,
               ("v" ++ toString i, "a" ++ toString i) :: ps)

/-- `_logo_coordinates` margin: `safe = max(0, min(1, safe_area or 0.8))`,
`margin = (1 - safe) / 2` (`0.0` is falsy and falls back to `0.8`). -/
def logo_margin (safe_area : ℚ) : ℚ :=
  (1 - max 0 (min 1 (if safe_area = 0 then 4/5 else safe_area))) / 2

/-- `(corner or "bottom_right").lower()`. -/
def logo_corner_norm (corner : String) : String :=
  (if corner = "" then "bottom_right" else corner).toLower

/-- `mini/render/ffmpeg_cmd.py` `build_filter_complex`, returning the
structured graph lines plus the final video and audio output labels. -/
def build_filter_complex (segments : List SegPayload) (inputs_count : ℕ)
    (logo_idx : Option ℕ) (width height : ℕ)
    (source_audio : Option (ℕ → Bool) := none)
    (logo_corner : String := "bottom_right") (logo_safe_area : ℚ := 4/5)
    (loudnorm : Bool := true) (synth_silence_for_missing_audio : Bool := true) :
    Except String (List FilterLine × String × String) :=
  let audio_flags := source_audio.getD (fun _ => true)
  let counts := usage_count segments
  let vB := vbranches counts inputs_count
  let aB := abranches audio_flags counts inputs_count
  match seg_loop width height audio_flags synth_silence_for_missing_audio vB aB
      segments 0 (fun _ => 0) (fun _ => 0) with
  | Except.error e => Except.error e
  | Except.ok (segls, pairs) =>
    let concat_line := FilterLine.concat pairs segments.length "vcat" "acat"
    let olines : List FilterLine := match logo_idx with
      | some li => [FilterLine.overlay "vcat" li (logo_margin logo_safe_area)
          (logo_corner_norm logo_corner) "vo"]
      | none => []
    let vout := match logo_idx with
      | some _ => "vo"
      | none => "vcat"
    let alast := if loudnorm then FilterLine.loudnorm "acat" "aout"
      else FilterLine.anorm "acat" "aout"
    Except.ok
      (input_lines audio_flags counts inputs_count ++ segls ++ [concat_line]
        ++ olines ++ [FilterLine.format vout "vout"] ++ [alast],
       "[vout]", "[aout]")

/-- First-occurrence deduplication, as `list(dict.fromkeys(...))`. -/
def first_occur (l : List String) : List String :=
  l.foldl (fun acc s => if s ∈ acc then acc else acc ++ [s]) []

/-- `Path.suffix`: the final extension of the last path component, with its
dot, or `""`. -/
def suffix_of (path : String) : String :=
  let name := (path.splitOn "/").getLastD path
  let parts := name.splitOn "."
  if parts.length ≤ 1 then "" else "." ++ parts.getLastD ""

/-- `ffmpeg_cmd.py` `_derive_output_path`: insert `_{ratio}` (colon replaced
by `x`) before the extension, defaulting the extension to `.mp4`. -/
def derive_output_path (stub ratio : String) : String :=
  let suffix := suffix_of stub
  let suffix2 := if suffix = "" then ".mp4" else suffix
  let base := stub.dropRight suffix.length
  base ++ "_" ++ (ratio.replace ":" "x") ++ suffix2

/-- One assembled render invocation.  The fixed codec/quality/bitrate tail of
the Python token list is constant and carries no information beyond these
fields, so the command is kept structured. -/
structure RenderCommand where
  inputs : List String
  filter : List FilterLine
  video_label : String
  audio_label : String
  output : String
deriving DecidableEq

/-- `ffmpeg_cmd.py` `_build_single_command`.  The logo-existence check and
the audio-presence probe are external collaborators, passed as
`logo_exists` and `has_audio`. -/
def build_single_command (edl : EDL) (branding : BrandingSettings)
    (width height : ℕ) (output_path : String) (logo_exists : Bool)
    (has_audio : String → Bool) : Except String RenderCommand :=
  let ordered_sources := first_occur (edl.segments.map Segment.src)
  let logo_idx : Option ℕ := match branding.logo_path with
    | some p => if p ≠ "" ∧ logo_exists then some ordered_sources.length else none
    | none => none
  let audio_presence : ℕ → Bool := fun idx =>
    has_audio (ordered_sources.getD idx "")
  let payload := edl.segments.map (fun s =>
    SegPayload.mk (List.indexOf s.src ordered_sources) s.start s.stop)
  match build_filter_complex payload ordered_sources.length logo_idx width
      height (some audio_presence) branding.logo_corner branding.safe_area
      true true with
  | Except.error e => Except.error e
  | Except.ok (lines, vl, al) =>
    Except.ok
      { inputs := ordered_sources
          ++ (match logo_idx, branding.logo_path with
              | some _, some p => [p]
              | _, _ => [])
        filter := lines, video_label := vl, audio_label := al,
        output := output_path }

/-- `ffmpeg_cmd.py` `ASPECT_DIMENSIONS`. -/
def ASPECT_DIMENSIONS : List (String × ℕ × ℕ) :=
  [("9:16", 1080, 1920), ("1:1", 1080, 1080), ("16:9", 1920, 1080)]

/-- `ffmpeg_cmd.py` `build_commands`: fail on an EDL with no segments, then
assemble one command per supported deliverable ratio, skipping unsupported
ratios.  (Python stores results in a dict keyed by ratio; the association
list preserves that keying.) -/
def build_commands (edl : EDL) (config : Config) (output_stub : String)
    (logo_exists : Bool) (has_audio : String → Bool) :
    Except String (List (String × RenderCommand)) :=
  if edl.segments = [] then
    Except.error "EDL contains no segments to render"
  else
    config.deliverables.foldlM
      (fun acc ratio =>
        match ASPECT_DIMENSIONS.lookup ratio with
        | none => Except.ok acc
        | some (w, h) =>
          (build_single_command edl config.branding w h
            (derive_output_path output_stub ratio) logo_exists has_audio).map
            (fun cmd => acc ++ [(ratio, cmd)]))
      []

/-! ### Shared concrete values -/

/-- `BrandingSettings()` dataclass defaults. -/
def default_branding : BrandingSettings :=
  { logo_path := none, logo_corner := "bottom_right", logo_size_px := 64,
    safe_area := 4/5 }

/-- `Config()` dataclass defaults from `mini/edl.py`. -/
def default_config : Config :=
  { project := "Event_Recap", variant := "deterministic", seed := 42,
    max_duration := 60, clip_min := 6/5, clip_max := 4,
    target_range := [2, 7/2], weights := DEFAULT_WEIGHTS,
    diversity := { min_gap_same_cam := 3, max_per_cam_share := 1/2 },
    branding := default_branding, deliverables := ["9:16"] }

/-! ### Claim C10 -/

/-- A serialized segment dict with the `out` span field missing, so
`edl_from_dict` defaults the end to `0.0` while the start is `5.0`. -/
def c10dict : EDLDict :=
  { project := "p", variant := "v", seed := 1, max_duration := 60,
    clip_min := 6/5, clip_max := 4,
    segments := [{ src := "s", in_ := some 5, out := none, score := none,
                   tags := none, cam := none }],
    metadata := none }

/-- Claim C10: `Segment.duration` is `max(0, end - start)` and hence never
negative, even for segments whose end precedes their start (such segments
are constructible through `edl_from_dict`, which defaults missing span
fields to `0.0`); consequently `EDL.total_duration`, a sum of durations, is
never negative. -/
theorem C10_duration_nonneg :
    (∀ s : Segment, 0 ≤ s.duration)
    ∧ (∀ e : EDL, 0 ≤ e.total_duration)
    ∧ (edl_from_dict c10dict).segments.map
        (fun s => (s.start, s.stop, s.duration)) = [(5, 0, 0)] := by
  refine ⟨fun s => le_max_left _ _, fun e => ?_, ?_⟩
  · apply List.sum_nonneg
    intro x hx
    obtain ⟨s, _, rfl⟩ := List.mem_map.mp hx
    exact le_max_left _ _
  · norm_num [c10dict, edl_from_dict, seg_from_dict, Segment.duration]

/-! ### Claim C7 -/

/-- An EDL whose single segment stores its tags out of alphabetical order;
`EDL.to_dict` emits the stored order verbatim. -/
def c7edl : EDL :=
  { project := "p", variant := "v", seed := 1, max_duration := 60,
    clip_min := 6/5, clip_max := 4,
    segments := [{ src := "s", start := 0, stop := 1, score := 1/2,
                   tags := ["b", "a"], camera := some "c" }],
    metadata := [] }

/-- Claim C7 counterexample: serialization does not emit tags as an
alphabetically sorted sequence — `to_dict` writes `list(seg.tags)` verbatim,
so a segment storing `("b", "a")` serializes unsorted. -/
theorem C7_counterexample :
    (EDL.to_dict c7edl).segments.map SegDict.tags = [some ["b", "a"]]
    ∧ ¬ List.Sorted (· ≤ ·) ["b", "a"] := by
  refine ⟨rfl, fun h => ?_⟩
  have hba := (List.pairwise_cons.mp h).1 "a" (by simp)
  rw [String.le_iff_toList_le] at hba
  exact absurd hba (by decide)

/-- Claim C7 (amended): `edl_from_dict (EDL.to_dict e)` reproduces the
segment sequence with the same length and order, equal `src`, `tags` and
`cam`, and the span timestamps rounded to 3 decimals and scores to 4; the
serialized tag sequence is the stored tuple verbatim (which is sorted for
selector-produced segments, but not re-sorted by `to_dict`). -/
theorem C7_roundtrip (e : EDL) :
    (edl_from_dict (EDL.to_dict e)).segments
      = e.segments.map (fun s =>
          { s with start := pround 3 s.start, stop := pround 3 s.stop,
                   score := pround 4 s.score })
    ∧ (EDL.to_dict e).segments.map SegDict.tags
      = e.segments.map (fun s => some s.tags) := by
  constructor
  · have h1 : (edl_from_dict (EDL.to_dict e)).segments
        = List.map seg_from_dict (List.map seg_to_dict e.segments) := rfl
    rw [h1, List.map_map]
    rfl
  · have h2 : (EDL.to_dict e).segments.map SegDict.tags
        = List.map SegDict.tags (List.map seg_to_dict e.segments) := rfl
    rw [h2, List.map_map]
    rfl

/-! ### Claim C2 -/

/-- Claim C2: selection is deterministic — identical candidate collections
and an identical `Config` (hence the same seed, from which the jitter
stream is a pure function) serialize to identical EDL dicts, hence to
byte-identical JSON. -/
theorem C2_deterministic (c1 c2 : List (String × List CandidateClip))
    (cfg1 cfg2 : Config) (hc : c1 = c2) (hcfg : cfg1 = cfg2) :
    EDL.to_dict (select_segments c1 cfg1).1
      = EDL.to_dict (select_segments c2 cfg2).1 := by
  subst hc
  subst hcfg
  rfl

def c2w_cands : List (String × List CandidateClip) :=
  [("a.mp4", [{ src := "a.mp4", start := 0, stop := 2, score := 1,
                tags := {"motion"}, camera := some "a" }])]

/-- Witness for C2 at a concrete one-candidate run. -/
theorem C2_witness :
    EDL.to_dict (select_segments c2w_cands default_config).1
      = EDL.to_dict (select_segments c2w_cands default_config).1 :=
  C2_deterministic c2w_cands c2w_cands default_config default_config rfl rfl

/-! ### Selection-loop invariants -/

/-- Lifting a one-step invariant of `sel_step` over the whole loop (both
`break` paths return the current state, so a step invariant is enough). -/
lemma sel_loop_inv {cfg : Config} (P : SelState → Prop)
    (hstep : ∀ st c, P st → P (sel_step cfg st c).1) :
    ∀ (cands : List CandidateClip) (st : SelState), P st → P (sel_loop cfg st cands) := by
  intro cands
  induction cands with
  | nil => intro st h; simpa [sel_loop] using h
  | cons c rest ih =>
    intro st h
    rw [sel_loop]
    by_cases hr : (sel_step cfg st c).2
    · simpa [hr] using ih _ (hstep st c h)
    · simpa [hr] using hstep st c h

/-- Either the selector returned the empty EDL, or its segments are the
`selected` list of a terminal loop state started from the empty state. -/
lemma select_segments_cases (cands : List (String × List CandidateClip))
    (cfg : Config) :
    (select_segments cands cfg).1.segments = [] ∨
    ∃ ordered, (select_segments cands cfg).1.segments
      = (sel_loop cfg ⟨[], 0, fun _ => 0, fun _ => none⟩ ordered).selected := by
  by_cases he : ((cands.map Prod.snd).flatten).isEmpty
  · left
    simp [select_segments, he, empty_edl]
  · right
    exact ⟨order_candidates ((cands.map Prod.snd).flatten) (rngStream cfg.seed),
      by simp [select_segments, he]⟩

/-- Key rounding-slack bound: accepting a raw span `[s, e]` with
`t + (e - s) ≤ M` keeps the running total strictly below `M + 0.001`,
because 3-decimal rounding moves each endpoint by less than `1/2000`. -/
lemma seg_total_lt (s e t M : ℚ) (h1 : t < M + 1/1000) (h2 : t + (e - s) ≤ M) :
    t + max 0 (pround 3 e - pround 3 s) < M + 1/1000 := by
  rcases le_or_lt (pround 3 e - pround 3 s) 0 with h | h
  · rw [max_eq_left h]
    simpa using h1
  · rw [max_eq_right h.le]
    have he := pround3_le e
    have hs := lt_pround3 s
    linarith

/-- Step preservation for the C1 invariant: the running total equals the
summed duration of the selected segments and stays below
`max_duration + 0.001`. -/
lemma sel_step_total (cfg : Config) (st : SelState) (cand : CandidateClip)
    (h : st.total = (st.selected.map Segment.duration).sum
      ∧ st.total < cfg.max_duration + 1/1000) :
    (sel_step cfg st cand).1.total
      = ((sel_step cfg st cand).1.selected.map Segment.duration).sum
    ∧ (sel_step cfg st cand).1.total < cfg.max_duration + 1/1000 := by
  obtain ⟨hsum, hlt⟩ := h
  rw [sel_step]
  split_ifs with h1 h2 h3 h4 h5 h6
  · exact ⟨hsum, hlt⟩
  · exact ⟨hsum, hlt⟩
  · exact ⟨hsum, hlt⟩
  · exact ⟨hsum, hlt⟩
  · exact ⟨hsum, hlt⟩
  · constructor
    · simp [after_accept, accept_segment, Segment.duration, hsum]
    · have hd : min cand.duration (min (cfg.max_duration - st.total) cfg.clip_max)
          ≤ cfg.max_duration - st.total :=
        le_trans (min_le_right _ _) (min_le_left _ _)
      have := seg_total_lt cand.start
        (cand.start + min cand.duration (min (cfg.max_duration - st.total) cfg.clip_max))
        st.total cfg.max_duration hlt (by linarith)
      simpa [after_accept, accept_segment, Segment.duration] using this
  · constructor
    · simp [after_accept, accept_segment, Segment.duration, hsum]
    · push_neg at h5
      have hle : cand.stop - cand.start ≤ cand.duration := le_max_right _ _
      have := seg_total_lt cand.start cand.stop st.total cfg.max_duration hlt
        (by have := cand.duration; linarith [hle, h5])
      simpa [after_accept, accept_segment, Segment.duration] using this

/-! ### Claim C1 -/

/-- A configuration that passes `Config.validate` yet has a tiny
`max_duration`, so the 0.001 rounding slack exceeds the ±1 % tolerance. -/
def c1cfg : Config :=
  { project := "Event_Recap", variant := "deterministic", seed := 42,
    max_duration := 501/10000, clip_min := 1/1000, clip_max := 501/10000,
    target_range := [2, 7/2], weights := DEFAULT_WEIGHTS,
    diversity := { min_gap_same_cam := 3, max_per_cam_share := 1 },
    branding := default_branding, deliverables := ["9:16"] }

/-- One candidate whose endpoints round outward: `[0.00049, 0.05055]` has raw
duration `0.05006 ≤ max_duration = 0.0501` but rounds to `[0.000, 0.051]`. -/
def c1cand : CandidateClip :=
  { src := "a.mp4", start := 49/100000, stop := 5055/100000, score := 1,
    tags := {"motion"}, camera := some "A" }

/-- Claim C1 counterexample: for the valid config `c1cfg`
(`max_duration = 0.0501`) and the single candidate `c1cand`, the returned
EDL's total duration is `0.051 > 1.01 × max_duration`, so the ±1 % bound
fails as stated. -/
theorem C1_counterexample :
    Config.validate c1cfg = true
    ∧ c1cfg.max_duration * (101/100)
      < (select_segments [("a.mp4", [c1cand])] c1cfg).1.total_duration := by
  constructor
  · norm_num [Config.validate, validate_weights, c1cfg, DEFAULT_WEIGHTS,
      VALID_DELIVERABLES, default_branding, List.all_cons]
  · norm_num [select_segments, order_candidates, stableSort, insertStable,
      sel_loop, sel_step, after_accept, accept_segment, passes_overlap_check,
      cam_label, gap_hit, CandidateClip.duration, Segment.duration,
      EDL.total_duration, c1cfg, c1cand, pround, round_eq, sorted_tags,
      default_branding]

/-- Claim C1 (amended): the selector's stop/trim rule bounds the running raw
total by `max_duration`, and the 3-decimal rounding of each accepted
segment's endpoints adds strictly less than 0.001 in all; hence for every
candidate collection and every config with `0 ≤ max_duration` the EDL's
total duration is `< max_duration + 0.001`, which is within the stated ±1 %
tolerance whenever `max_duration ≥ 0.1`. -/
theorem C1_amended (cands : List (String × List CandidateClip)) (cfg : Config)
    (hM : 0 ≤ cfg.max_duration) :
    (select_segments cands cfg).1.total_duration < cfg.max_duration + 1/1000
    ∧ (1/10 ≤ cfg.max_duration →
       (select_segments cands cfg).1.total_duration
         ≤ 101/100 * cfg.max_duration) := by
  have main : (select_segments cands cfg).1.total_duration
      < cfg.max_duration + 1/1000 := by
    rcases select_segments_cases cands cfg with h | ⟨ordered, h⟩
    · rw [EDL.total_duration, h]
      simp
      linarith
    · rw [EDL.total_duration, h]
      have hinv := @sel_loop_inv cfg
        (fun st => st.total = (st.selected.map Segment.duration).sum
          ∧ st.total < cfg.max_duration + 1/1000)
        (fun st c hP => sel_step_total cfg st c hP)
        ordered ⟨[], 0, fun _ => 0, fun _ => none⟩ ⟨by simp, by linarith⟩
      rw [← hinv.1]
      exact hinv.2
  exact ⟨main, fun h10 => by linarith⟩

/-- Witness for the amended C1 at the default config. -/
theorem C1_witness :
    (select_segments [] default_config).1.total_duration
      ≤ 101/100 * default_config.max_duration :=
  (C1_amended [] default_config (by norm_num [default_config])).2
    (by norm_num [default_config])

/-! ### Claim C3 -/

/-- Total duration the EDL assigns to one camera label. -/
def cam_usage_of (e : EDL) (cam : String) : ℚ :=
  ((e.segments.filter (fun s => s.camera = some cam)).map Segment.duration).sum

/-- The C3 invariant: per-camera running usage agrees with the selected
segments and stays below `share + 1e-6 + 0.001`. -/
def usage_inv (cfg : Config) (st : SelState) : Prop :=
  ∀ cam : String,
    st.camUsage cam
      = ((st.selected.filter (fun s => s.camera = some cam)).map
          Segment.duration).sum
    ∧ st.camUsage cam
      < cfg.diversity.max_per_cam_share * cfg.max_duration + 1/1000000 + 1/1000

/-- Accepting a candidate that passed the camera-share check preserves the
C3 invariant. -/
lemma usage_accept (cfg : Config) (st : SelState) (cand : CandidateClip)
    (cand_end : ℚ)
    (hcheck : st.camUsage (cam_label cand.camera) + cand.duration
      ≤ cfg.diversity.max_per_cam_share * cfg.max_duration + 1/1000000)
    (hend : cand_end - cand.start ≤ cand.duration)
    (h : usage_inv cfg st) :
    usage_inv cfg (accept_segment cand (cam_label cand.camera) cand_end st) := by
  intro cam
  by_cases hcam : cam = cam_label cand.camera
  · subst hcam
    refine ⟨?_, ?_⟩
    · simp [accept_segment, List.filter_append, Segment.duration, (h _).1]
    · have hb := (h (cam_label cand.camera)).2
      have key := seg_total_lt cand.start cand_end
        (st.camUsage (cam_label cand.camera))
        (cfg.diversity.max_per_cam_share * cfg.max_duration + 1/1000000)
        (by linarith) (by linarith)
      simpa [accept_segment, Segment.duration] using key
  · have hne : ¬ (some (cam_label cand.camera) = some cam) := by
      intro hh
      exact hcam (Option.some.inj hh).symm
    refine ⟨?_, ?_⟩
    · simpa [accept_segment, List.filter_append, hne, hcam]
        using (h cam).1
    · simpa [accept_segment, hcam] using (h cam).2

/-- Step preservation for the C3 invariant. -/
lemma sel_step_usage (cfg : Config) (st : SelState) (cand : CandidateClip)
    (h : usage_inv cfg st) : usage_inv cfg (sel_step cfg st cand).1 := by
  rw [sel_step]
  split_ifs with h1 h2 h3 h4 h5 h6
  · exact h
  · exact h
  · exact h
  · exact h
  · exact h
  · push_neg at h3
    have hacc := usage_accept cfg st cand
      (cand.start + min cand.duration
        (min (cfg.max_duration - st.total) cfg.clip_max))
      h3 (by rw [add_sub_cancel_left]; exact min_le_left _ _) h
    simpa [after_accept] using hacc
  · push_neg at h3
    have hacc := usage_accept cfg st cand cand.stop h3 (le_max_right _ _) h
    simpa [after_accept] using hacc

/-- A valid config (`max_duration = 8.0009`, ratio `0.5`, share `4.00045`)
where the accepted candidate's rounded duration pushes camera `A` past the
claimed `share + 1e-6` bound. -/
def c3cfg : Config :=
  { project := "Event_Recap", variant := "deterministic", seed := 42,
    max_duration := 80009/10000, clip_min := 1, clip_max := 9/2,
    target_range := [2, 7/2], weights := DEFAULT_WEIGHTS,
    diversity := { min_gap_same_cam := 3, max_per_cam_share := 1/2 },
    branding := default_branding, deliverables := ["9:16"] }

/-- The candidate `[0.0003, 4.0007]`: raw duration `4.0004` passes the
camera check (`≤ 4.000451`) but the segment rounds to `[0.000, 4.001]`. -/
def c3cand : CandidateClip :=
  { src := "a.mp4", start := 3/10000, stop := 40007/10000, score := 1,
    tags := {"motion"}, camera := some "A" }

/-- Claim C3 counterexample: with the valid config `c3cfg`, camera `A`'s
accepted duration is `4.001`, exceeding
`max_per_cam_ratio × max_duration + 1e-6 = 4.000451`. -/
theorem C3_counterexample :
    Config.validate c3cfg = true
    ∧ c3cfg.diversity.max_per_cam_share * c3cfg.max_duration + 1/1000000
      < cam_usage_of (select_segments [("a.mp4", [c3cand])] c3cfg).1 "A" := by
  constructor
  · norm_num [Config.validate, validate_weights, c3cfg, DEFAULT_WEIGHTS,
      VALID_DELIVERABLES, default_branding, List.all_cons]
  · have hcamA : cam_label (some "A") = "A" := by decide
    norm_num [select_segments, order_candidates, stableSort, insertStable,
      sel_loop, sel_step, after_accept, accept_segment, passes_overlap_check,
      hcamA, gap_hit, CandidateClip.duration, Segment.duration,
      cam_usage_of, c3cfg, c3cand, pround, round_eq, sorted_tags,
      default_branding]

/-- Claim C3 (amended): the per-camera fairness check compares the running
usage plus the candidate's raw duration against `share + 1e-6` before
rounding, so each camera's accepted total stays strictly below
`max_per_cam_ratio × max_duration + 1e-6 + 0.001` (for nonnegative shares);
the extra `0.001` is the 3-decimal endpoint-rounding slack of the final
accepted segment, and a candidate that would push the raw usage past
`share + 1e-6` is rejected. -/
theorem C3_amended (cands : List (String × List CandidateClip)) (cfg : Config)
    (cam : String)
    (hshare : 0 ≤ cfg.diversity.max_per_cam_share * cfg.max_duration) :
    cam_usage_of (select_segments cands cfg).1 cam
      < cfg.diversity.max_per_cam_share * cfg.max_duration
          + 1/1000000 + 1/1000 := by
  rcases select_segments_cases cands cfg with h | ⟨ordered, h⟩
  · rw [cam_usage_of, h]
    simp
    linarith
  · rw [cam_usage_of, h]
    have hinv := @sel_loop_inv cfg (usage_inv cfg)
      (fun st c hP => sel_step_usage cfg st c hP)
      ordered ⟨[], 0, fun _ => 0, fun _ => none⟩
      (fun c => ⟨by simp, by linarith⟩)
    rw [← (hinv cam).1]
    exact (hinv cam).2

/-- Witness for the amended C3 at the default config. -/
theorem C3_witness :
    cam_usage_of (select_segments [] default_config).1 "A"
      < default_config.diversity.max_per_cam_share
          * default_config.max_duration + 1/1000000 + 1/1000 :=
  C3_amended [] default_config "A" (by norm_num [default_config])

/-! ### Claim C4 -/

lemma min_le_min_add (a x c : ℚ) (hc : 0 ≤ c) : min a (x + c) ≤ min a x + c := by
  rcases le_total a x with h | h
  · rw [min_eq_left h]
    exact le_trans (min_le_left _ _) (by linarith)
  · rw [min_eq_right h]
    exact le_trans (min_le_right _ _) (by linarith)

lemma max_sub_lt (a x p c : ℚ) (hc : 0 < c) (h : x - c < p) :
    max a x - c < max a p := by
  rcases le_total a x with hax | hax
  · rw [max_eq_right hax]
    exact lt_of_lt_of_le h (le_max_right _ _)
  · rw [max_eq_left hax]
    exact lt_of_lt_of_le (by linarith) (le_max_left _ _)

lemma add_max0_sub (a b : ℚ) : a + max 0 (b - a) = max a b := by
  rcases le_total a b with h | h
  · rw [max_eq_right (by linarith : (0:ℚ) ≤ b - a), max_eq_right h]
    ring
  · rw [max_eq_left (by linarith : b - a ≤ (0:ℚ)), max_eq_left h]
    ring

/-- Unfolding of the overlap check: every accepted same-source segment
intersects the candidate's raw span by at most the tolerance. -/
lemma passes_overlap_spec {cand : CandidateClip} {sel : List Segment} :
    passes_overlap_check cand sel = true ↔
      ∀ s ∈ sel, s.src = cand.src →
        min s.stop cand.stop - max s.start cand.start ≤ 1/4 := by
  simp only [passes_overlap_check, List.all_eq_true, decide_eq_true_eq]

/-- Core rounding argument for C4: if the candidate's raw span overlaps an
accepted (3-decimal-grid) segment by at most `1/4`, then the rounded span
does too, because the rounded overlap lies on the millisecond grid and grows
by strictly less than `0.001`. -/
lemma accept_overlap_le (s : Segment) (cand : CandidateClip) (cand_end : ℚ)
    (hgs : onGrid s.start) (hge : onGrid s.stop)
    (hchk : min s.stop cand.stop - max s.start cand.start ≤ 1/4)
    (hce : cand_end ≤ max cand.start cand.stop) :
    min s.stop (pround 3 cand_end) - max s.start (pround 3 cand.start) ≤ 1/4 := by
  rcases le_or_lt (pround 3 cand_end) (pround 3 cand.start) with hdeg | hpos
  · have h1 : min s.stop (pround 3 cand_end) ≤ pround 3 cand_end :=
      min_le_right _ _
    have h2 : pround 3 cand.start ≤ max s.start (pround 3 cand.start) :=
      le_max_right _ _
    linarith
  · have hss : cand.start ≤ cand.stop := by
      by_contra hcon
      push_neg at hcon
      have h1 : cand_end ≤ cand.start := by
        rwa [max_eq_left hcon.le] at hce
      exact absurd (pround3_mono h1) (not_le.mpr hpos)
    have hce' : cand_end ≤ cand.stop := by rwa [max_eq_right hss] at hce
    have hlt : min s.stop (pround 3 cand_end)
        - max s.start (pround 3 cand.start) < 1/4 + 1/1000 := by
      have h1 : pround 3 cand_end ≤ cand.stop + 1/2000 :=
        le_trans (pround3_le _) (by linarith)
      have h2 : min s.stop (pround 3 cand_end)
          ≤ min s.stop (cand.stop + 1/2000) :=
        min_le_min (le_refl _) h1
      have h3 : min s.stop (cand.stop + 1/2000)
          ≤ min s.stop cand.stop + 1/2000 :=
        min_le_min_add _ _ _ (by norm_num)
      have h4 : max s.start cand.start - 1/2000
          < max s.start (pround 3 cand.start) :=
        max_sub_lt _ _ _ _ (by norm_num) (lt_pround3 cand.start)
      linarith
    have hgrid : onGrid (min s.stop (pround 3 cand_end)
        - max s.start (pround 3 cand.start)) :=
      onGrid_sub (onGrid_min hge (pround3_onGrid _))
        (onGrid_max hgs (pround3_onGrid _))
    exact onGrid_le_of_lt hgrid hlt

/-- The C4 invariant: accepted segments lie on the 3-decimal grid and no two
same-source accepted segments overlap by more than `1/4`. -/
def overlap_inv (st : SelState) : Prop :=
  (∀ s ∈ st.selected, onGrid s.start ∧ onGrid s.stop)
  ∧ st.selected.Pairwise (fun a b => a.src = b.src →
      min a.stop b.stop - max a.start b.start ≤ 1/4)

/-- Accepting a candidate that passed the overlap check preserves the C4
invariant (for any accepted end not exceeding the candidate's raw span). -/
lemma overlap_accept (st : SelState) (cand : CandidateClip) (camera : String)
    (cand_end : ℚ)
    (hpass : passes_overlap_check cand st.selected = true)
    (hce : cand_end ≤ max cand.start cand.stop)
    (h : overlap_inv st) :
    overlap_inv (accept_segment cand camera cand_end st) := by
  obtain ⟨hg, hp⟩ := h
  have hsel : (accept_segment cand camera cand_end st).selected
      = st.selected ++
        [{ src := cand.src, start := pround 3 cand.start,
           stop := pround 3 cand_end, score := cand.score,
           tags := sorted_tags cand.tags, camera := some camera } ] := rfl
  constructor
  · intro s hs
    rw [hsel] at hs
    rcases List.mem_append.mp hs with hs | hs
    · exact hg s hs
    · rcases List.mem_singleton.mp hs with rfl
      exact ⟨pround3_onGrid _, pround3_onGrid _⟩
  · rw [hsel]
    rw [List.pairwise_append]
    refine ⟨hp, List.pairwise_singleton _ _, ?_⟩
    intro a ha b hb
    rcases List.mem_singleton.mp hb with rfl
    intro hsrc
    exact accept_overlap_le a cand cand_end (hg a ha).1 (hg a ha).2
      (passes_overlap_spec.mp hpass a ha hsrc) hce

/-- Step preservation for the C4 invariant. -/
lemma sel_step_overlap (cfg : Config) (st : SelState) (cand : CandidateClip)
    (h : overlap_inv st) : overlap_inv (sel_step cfg st cand).1 := by
  rw [sel_step]
  split_ifs with h1 h2 h3 h4 h5 h6
  · exact h
  · exact h
  · exact h
  · exact h
  · exact h
  · have hpass : passes_overlap_check cand st.selected = true := by
      simpa using h2
    have hce : cand.start + min cand.duration
        (min (cfg.max_duration - st.total) cfg.clip_max)
        ≤ max cand.start cand.stop := by
      have hm : min cand.duration
          (min (cfg.max_duration - st.total) cfg.clip_max)
          ≤ cand.duration := min_le_left _ _
      calc cand.start + min cand.duration
            (min (cfg.max_duration - st.total) cfg.clip_max)
          ≤ cand.start + cand.duration := by linarith
        _ = max cand.start cand.stop := by
            rw [CandidateClip.duration, add_max0_sub]
    simpa [after_accept] using overlap_accept st cand _ _ hpass hce h
  · have hpass : passes_overlap_check cand st.selected = true := by
      simpa using h2
    simpa [after_accept] using
      overlap_accept st cand _ cand.stop hpass (le_max_right _ _) h

/-- Claim C4: in every EDL produced by `select_segments`, any two distinct
segments referencing the same source intersect for at most 0.25 seconds
(the `Pairwise` relation ranges over all ordered pairs of distinct list
positions, and the intersection length is symmetric in the pair):
candidates overlapping an already-accepted same-source segment by more than
0.25 s are rejected, and the 3-decimal rounding of accepted endpoints
cannot push a passing overlap beyond 0.25 because overlaps of grid-aligned
segments are multiples of 0.001. -/
theorem C4_no_material_overlap (cands : List (String × List CandidateClip))
    (cfg : Config) :
    (select_segments cands cfg).1.segments.Pairwise (fun a b =>
      a.src = b.src →
        max 0 (min a.stop b.stop - max a.start b.start) ≤ 1/4) := by
  have key : (select_segments cands cfg).1.segments.Pairwise (fun a b =>
      a.src = b.src → min a.stop b.stop - max a.start b.start ≤ 1/4) := by
    rcases select_segments_cases cands cfg with h | ⟨ordered, h⟩
    · rw [h]
      exact List.Pairwise.nil
    · rw [h]
      exact (sel_loop_inv overlap_inv
        (fun st c hP => sel_step_overlap cfg st c hP) ordered
        ⟨[], 0, fun _ => 0, fun _ => none⟩
        ⟨by simp, List.Pairwise.nil⟩).2
  exact key.imp (fun hab hsrc => max_le (by norm_num) (hab hsrc))

def c4w_cands : List (String × List CandidateClip) :=
  [("s.mp4",
    [{ src := "s.mp4", start := 0, stop := 2, score := 9/10,
       tags := {"motion"}, camera := some "a" },
     { src := "s.mp4", start := 10, stop := 12, score := 8/10,
       tags := {"audio_peak"}, camera := some "b" }])]

/-- Witness for C4 at a concrete two-candidate run. -/
theorem C4_witness :
    (select_segments c4w_cands default_config).1.segments.Pairwise (fun a b =>
      a.src = b.src →
        max 0 (min a.stop b.stop - max a.start b.start) ≤ 1/4) :=
  C4_no_material_overlap c4w_cands default_config

/-! ### Claims C5 and C6: candidate builder -/

lemma merge_loop_mem_mono {tol : ℚ} {x : CandidateClip} :
    ∀ (rest acc : List CandidateClip), x ∈ acc → x ∈ merge_loop tol acc rest := by
  intro rest
  induction rest with
  | nil => intro acc h; simpa [merge_loop] using h
  | cons c cs ih =>
    intro acc h
    rw [merge_loop]
    split
    · exact ih acc h
    · exact ih _ (List.mem_append_left _ h)

lemma merge_loop_subset {tol : ℚ} {x : CandidateClip} :
    ∀ (rest acc : List CandidateClip), x ∈ merge_loop tol acc rest →
      x ∈ acc ∨ x ∈ rest := by
  intro rest
  induction rest with
  | nil => intro acc h; left; simpa [merge_loop] using h
  | cons c cs ih =>
    intro acc h
    rw [merge_loop] at h
    split at h
    · rcases ih acc h with h' | h'
      · exact Or.inl h'
      · exact Or.inr (List.mem_cons_of_mem _ h')
    · rcases ih _ h with h' | h'
      · rcases List.mem_append.mp h' with h'' | h''
        · exact Or.inl h''
        · exact Or.inr (List.mem_cons.mpr (Or.inl (List.mem_singleton.mp h'')))
      · exact Or.inr (List.mem_cons_of_mem _ h')

lemma merge_loop_pairwise {tol : ℚ} :
    ∀ (rest acc : List CandidateClip),
      acc.Pairwise (fun a b => overlaps_tol b a tol = false) →
      (merge_loop tol acc rest).Pairwise
        (fun a b => overlaps_tol b a tol = false) := by
  intro rest
  induction rest with
  | nil => intro acc h; simpa [merge_loop] using h
  | cons c cs ih =>
    intro acc h
    rw [merge_loop]
    split
    · exact ih acc h
    · rename_i hany
      refine ih _ ?_
      rw [List.pairwise_append]
      refine ⟨h, List.pairwise_singleton _ _, ?_⟩
      intro a ha b hb
      rcases List.mem_singleton.mp hb with rfl
      exact Bool.eq_false_iff.mpr
        (List.any_eq_false.mp (by simpa using hany) a ha)

lemma merge_loop_covers {tol : ℚ} :
    ∀ (rest acc : List CandidateClip),
      (∀ a ∈ acc, ∀ c ∈ rest, c.score ≤ a.score) →
      rest.Pairwise (fun a b => b.score ≤ a.score) →
      ∀ c ∈ rest, ∃ k, k ∈ merge_loop tol acc rest ∧
        (k = c ∨ (overlaps_tol c k tol = true ∧ c.score ≤ k.score)) := by
  intro rest
  induction rest with
  | nil => intro acc _ _ c hc; cases hc
  | cons c0 cs ih =>
    intro acc hacc hsorted c hc
    rw [merge_loop]
    rcases List.mem_cons.mp hc with rfl | hc'
    · split
      · rename_i hany
        obtain ⟨e, he, hov⟩ := List.any_eq_true.mp hany
        exact ⟨e, merge_loop_mem_mono cs acc he,
          Or.inr ⟨by simpa using hov, hacc e he c (by simp)⟩⟩
      · exact ⟨c, merge_loop_mem_mono cs _ (List.mem_append_right _ (by simp)),
          Or.inl rfl⟩
    · have hsorted' := (List.pairwise_cons.mp hsorted).2
      have hhead := (List.pairwise_cons.mp hsorted).1
      split
      · exact ih acc (fun a ha d hd => hacc a ha d (List.mem_cons_of_mem _ hd))
          hsorted' c hc'
      · refine ih _ ?_ hsorted' c hc'
        intro a ha d hd
        rcases List.mem_append.mp ha with ha' | ha'
        · exact hacc a ha' d (List.mem_cons_of_mem _ hd)
        · rcases List.mem_singleton.mp ha' with rfl
          exact hhead d hd

/-- Eliminating a successful `build_candidate`: the composite score is
positive (non-positive scores return `none`), and the tag set is exactly the
anchor tag plus every tag with positive weight and positive window
contribution. -/
lemma build_candidate_elim {src cam : String} {dur : ℚ}
    {evs : List (String × List DetectionEvent)} {cfg : Config} {tag : String}
    {ev : DetectionEvent} {c : CandidateClip}
    (h : build_candidate src cam dur evs cfg tag ev = some c) :
    0 < c.score ∧ ∀ t : String,
      t ∈ c.tags ↔ (t = tag ∨ ∃ p ∈ evs, p.1 = t ∧ 0 < weight_of cfg t ∧
        0 < window_contribution ev.time p.2
          ((window_bounds cfg dur ev.time).2 - (window_bounds cfg dur ev.time).1)) := by
  rw [build_candidate] at h
  have hsplit : ∀ {α : Type} {p : Prop} [Decidable p] {x c : α},
      (if p then none else some x) = some c → ¬ p ∧ x = c := by
    intro α p hdec x c hh
    split_ifs at hh with hp
    exact ⟨hp, Option.some.inj hh⟩
  obtain ⟨hs, hrec⟩ := hsplit h
  subst hrec
  refine ⟨not_le.mp hs, fun t => ?_⟩
  simp only [Finset.mem_insert, List.mem_toFinset, List.mem_map,
    List.mem_filter, decide_eq_true_eq]
  constructor
  · rintro (rfl | ⟨p, ⟨hp, hw, hcon⟩, rfl⟩)
    · exact Or.inl rfl
    · exact Or.inr ⟨p, hp, rfl, hw, hcon⟩
  · rintro (rfl | ⟨p, hp, rfl, hw, hcon⟩)
    · exact Or.inl rfl
    · exact Or.inr ⟨p, ⟨hp, hw, hcon⟩, rfl⟩

/-- Every candidate emitted by `generate_candidates` came from a successful
`build_candidate` call for some anchor tag and event. -/
lemma generate_mem_elim {path : String} {dur : ℚ}
    {evs : List (String × List DetectionEvent)} {cfg : Config}
    {c : CandidateClip} (hc : c ∈ generate_candidates path dur evs cfg) :
    ∃ tag ev, build_candidate path (infer_camera_label path) dur evs cfg
      tag ev = some c := by
  have haux : ∀ (anchors : List String),
      c ∈ gen_from_anchors path dur evs cfg anchors →
      ∃ tag ev, build_candidate path (infer_camera_label path) dur evs cfg
        tag ev = some c := by
    intro anchors hm
    rw [gen_from_anchors] at hm
    split_ifs at hm
    · cases hm
    · rw [stableSort_mem] at hm
      rcases merge_loop_subset _ _ hm with h | h
      · cases h
      · rw [stableSort_mem] at h
        obtain ⟨tag, _, h'⟩ := List.mem_flatMap.mp h
        obtain ⟨ev, _, heq⟩ := List.mem_filterMap.mp h'
        exact ⟨tag, ev, heq⟩
  rw [generate_candidates] at hc
  split_ifs at hc
  · cases hc
  · exact haux _ hc

/-- Claim C5 (amended): every candidate kept by `generate_candidates` has a
strictly positive composite score (score ≤ 0 is discarded), and the tag set
of a built candidate is the anchor tag together with exactly the tags whose
weight is positive and whose events contribute a positive score sum within
the window's half-width of the anchor time — the anchor tag itself is always
included, even when its own weighted contribution is zero. -/
theorem C5_tags (src cam : String) (dur : ℚ)
    (evs : List (String × List DetectionEvent)) (cfg : Config) :
    (∀ c ∈ generate_candidates src dur evs cfg, 0 < c.score)
    ∧ (∀ (tag : String) (ev : DetectionEvent) (c : CandidateClip),
        build_candidate src cam dur evs cfg tag ev = some c →
        0 < c.score ∧ ∀ t : String,
          t ∈ c.tags ↔ (t = tag ∨ ∃ p ∈ evs, p.1 = t ∧ 0 < weight_of cfg t ∧
            0 < window_contribution ev.time p.2
              ((window_bounds cfg dur ev.time).2
                - (window_bounds cfg dur ev.time).1))) := by
  constructor
  · intro c hc
    obtain ⟨tag, ev, heq⟩ := generate_mem_elim hc
    exact (build_candidate_elim heq).1
  · intro tag ev c h
    exact build_candidate_elim h

/-- Weights putting all mass on `faces`, leaving `scene_novelty` at zero
weight; a valid configuration. -/
def c5cfg : Config := { default_config with weights := [("faces", 1)] }

def c5evs : List (String × List DetectionEvent) :=
  [("scene_novelty", [{ time := 5, score := 1, tag := "scene_novelty" }]),
   ("faces", [{ time := 26/5, score := 1, tag := "faces" }])]

/-- Claim C5 counterexample: with no `audio_peak`/`motion` events the
builder anchors on every tag; the candidate anchored on the zero-weight
`scene_novelty` event carries `scene_novelty` in its tags although that tag
contributed no positive weighted amount (its weight is 0), refuting
"a tag is in the candidate's tags only if its weight is positive". -/
theorem C5_counterexample :
    Config.validate c5cfg = true
    ∧ (generate_candidates "ev.mp4" 60 c5evs c5cfg).map
        (fun c => decide ("scene_novelty" ∈ c.tags)) = [true]
    ∧ weight_of c5cfg "scene_novelty" = 0 := by
  refine ⟨?_, ?_, ?_⟩
  · norm_num [Config.validate, validate_weights, c5cfg, default_config,
      DEFAULT_WEIGHTS, VALID_DELIVERABLES, default_branding, List.all_cons]
  · have b1 : ("audio_peak" == "scene_novelty") = false := rfl
    have b2 : ("audio_peak" == "faces") = false := rfl
    have b3 : ("motion" == "scene_novelty") = false := rfl
    have b4 : ("motion" == "faces") = false := rfl
    have b5 : ("scene_novelty" == "scene_novelty") = true := rfl
    have b6 : ("faces" == "scene_novelty") = false := rfl
    have b7 : ("faces" == "faces") = true := rfl
    have b8 : ("scene_novelty" == "faces") = false := rfl
    norm_num [generate_candidates, gen_from_anchors, c5evs, c5cfg,
      default_config, ANCHOR_TAGS, List.lookup, merge_similar_candidates,
      merge_loop, stableSort, insertStable, overlaps_tol, build_candidate,
      window_bounds, target_len, window_contribution, weight_of, abs_le,
      abs_lt, pround, round_eq, DEFAULT_WEIGHTS, b1, b2, b3, b4, b5, b6, b7,
      b8, List.toFinset_cons, List.toFinset_nil, List.filterMap_cons,
      List.filterMap_nil, List.foldl_cons, List.foldl_nil]
  · have b8 : ("scene_novelty" == "faces") = false := rfl
    norm_num [weight_of, c5cfg, List.lookup, b8]

def c5anchor : DetectionEvent := { time := 5, score := 1, tag := "scene_novelty" }

/-- The candidate built for the `scene_novelty` anchor of `c5evs`. -/
def c5cand : CandidateClip :=
  { src := "ev.mp4", start := 29/8, stop := 51/8, score := 1,
    tags := insert "scene_novelty" (["faces"].toFinset), camera := some "ev" }

/-- Witness for the amended C5: the built candidate's tag-membership
characterization at the concrete anchor. -/
theorem C5_witness :
    "scene_novelty" ∈ c5cand.tags ↔ ("scene_novelty" = "scene_novelty"
      ∨ ∃ p ∈ c5evs, p.1 = "scene_novelty"
          ∧ 0 < weight_of c5cfg "scene_novelty"
          ∧ 0 < window_contribution c5anchor.time p.2
              ((window_bounds c5cfg 60 c5anchor.time).2
                - (window_bounds c5cfg 60 c5anchor.time).1)) :=
  ((C5_tags "ev.mp4" "ev" 60 c5evs c5cfg).2 "scene_novelty" c5anchor c5cand
    (by
      have b6 : ("faces" == "scene_novelty") = false := rfl
      have b7 : ("faces" == "faces") = true := rfl
      have b8 : ("scene_novelty" == "faces") = false := rfl
      norm_num [build_candidate, window_bounds, target_len, c5cfg,
        default_config, window_contribution, weight_of, c5evs, c5anchor,
        c5cand, List.lookup, abs_le, pround, round_eq, b6, b7, b8,
        List.toFinset_cons, List.toFinset_nil, List.filterMap_cons,
        List.filterMap_nil, List.foldl_cons, List.foldl_nil])).2 "scene_novelty"

/-! ### Claim C6 -/

def c6hi : CandidateClip :=
  { src := "s.mp4", start := 10, stop := 13, score := 9/10,
    tags := {"motion"}, camera := some "s" }

def c6lo : CandidateClip :=
  { src := "s.mp4", start := 101/10, stop := 131/10, score := 2/5,
    tags := {"motion"}, camera := some "s" }

/-- Claim C6: deduplication processes candidates in descending-score order
and keeps a candidate iff no previously kept same-source candidate has both
its start and end within 0.5 s — witnessed by (1) the concrete 0.9/0.4
near-duplicate pair collapsing to the 0.9 candidate, (2) kept candidates
are pairwise non-similar, (3) every input candidate is either kept or
similar to a kept candidate of no smaller score, and (4) the builder's
output is sorted in descending score order. -/
theorem C6_dedup :
    merge_similar_candidates [c6lo, c6hi] = [c6hi]
    ∧ (∀ l : List CandidateClip,
        (merge_similar_candidates l).Pairwise
          (fun a b => overlaps_tol b a (1/2) = false))
    ∧ (∀ (l : List CandidateClip) (c : CandidateClip), c ∈ l →
        ∃ k, k ∈ merge_similar_candidates l ∧
          (k = c ∨ (overlaps_tol c k (1/2) = true ∧ c.score ≤ k.score)))
    ∧ (∀ (path : String) (dur : ℚ)
        (evs : List (String × List DetectionEvent)) (cfg : Config),
        (generate_candidates path dur evs cfg).Pairwise
          (fun a b => b.score ≤ a.score)) := by
  refine ⟨?_, ?_, ?_, ?_⟩
  · norm_num [merge_similar_candidates, merge_loop, stableSort, insertStable,
      overlaps_tol, c6hi, c6lo, abs_le]
  · intro l
    exact merge_loop_pairwise _ _ List.Pairwise.nil
  · intro l c hc
    refine merge_loop_covers _ _ (by simp) ?_ c (stableSort_mem.mpr hc)
    exact stableSort_sorted (fun x : CandidateClip => x.score) l
  · intro path dur evs cfg
    rw [generate_candidates]
    split_ifs
    · exact List.Pairwise.nil
    · rw [gen_from_anchors]
      split_ifs
      · exact List.Pairwise.nil
      · exact stableSort_sorted (fun x : CandidateClip => x.score) _

/-- Witness for C6: the 0.4-scored near-duplicate is covered by a kept
candidate of no smaller score. -/
theorem C6_witness :
    ∃ k, k ∈ merge_similar_candidates [c6lo, c6hi] ∧
      (k = c6lo ∨ (overlaps_tol c6lo k (1/2) = true ∧ c6lo.score ≤ k.score)) :=
  C6_dedup.2.2.1 [c6lo, c6hi] c6lo (by simp)

/-! ### Claims C8 and C9: render-graph compiler lemmas -/

/-- Recognizer for the concatenation node. -/
def FilterLine.is_concat : FilterLine → Bool
  | FilterLine.concat _ _ _ _ => true
  | _ => false

/-- Input label of a video-trim line, when the line is one. -/
def FilterLine.vtrim_input : FilterLine → Option String
  | FilterLine.vtrim input _ _ _ => some input
  | _ => none

/-- Inputs and arity of a concatenation line, when the line is one. -/
def FilterLine.concat_data : FilterLine → Option (List (String × String) × ℕ)
  | FilterLine.concat pairs n _ _ => some (pairs, n)
  | _ => none

/-- Source index of the `j`-th segment payload. -/
def src_at (segs : List SegPayload) (j : ℕ) : ℕ :=
  (segs.getD j ⟨0, 0, 0⟩).src_index

/-- How many of the first `j` segments reference the same source as the
`j`-th — the branch ordinal the claim talks about. -/
def count_before (segs : List SegPayload) (j : ℕ) : ℕ :=
  ((segs.take j).filter (fun t => t.src_index = src_at segs j)).length

/-- The expected video-trim inputs of the segment loop: each segment
consumes its source's branch at the current cursor, and the cursor then
advances. -/
def vtrim_spec (vB : ℕ → List String) : List SegPayload → (ℕ → ℕ) → List String
  | [], _ => []
  | s :: rest, cv =>
    (vB s.src_index).getD (cv s.src_index) "" :: vtrim_spec vB rest (bump cv s.src_index)

lemma usage_count_cons_self {s : SegPayload} {rest : List SegPayload} {idx : ℕ}
    (h : s.src_index = idx) :
    usage_count (s :: rest) idx = usage_count rest idx + 1 := by
  simp [usage_count, List.filter_cons, h]

lemma usage_count_cons_ne {s : SegPayload} {rest : List SegPayload} {idx : ℕ}
    (h : ¬ s.src_index = idx) :
    usage_count (s :: rest) idx = usage_count rest idx := by
  simp [usage_count, List.filter_cons, h]

lemma vbranches_length {counts : ℕ → ℕ} {n idx : ℕ} (h : idx < n) :
    (vbranches counts n idx).length = counts idx := by
  rw [vbranches]
  by_cases h0 : 0 < counts idx
  · rw [if_pos ⟨h, h0⟩]
    by_cases h1 : 1 < counts idx
    · simp [h1, vsplit_labels]
    · simp [h1]
      omega
  · rw [if_neg (by tauto)]
    simp
    omega

lemma vbranches_out {counts : ℕ → ℕ} {n idx : ℕ} (h : ¬ idx < n) :
    vbranches counts n idx = [] := by
  rw [vbranches, if_neg (by tauto)]

lemma abranches_length {aflag : ℕ → Bool} {counts : ℕ → ℕ} {n idx : ℕ}
    (h : idx < n) (hf : aflag idx = true) :
    (abranches aflag counts n idx).length = counts idx := by
  rw [abranches]
  by_cases h0 : 0 < counts idx
  · rw [if_pos ⟨h, h0, hf⟩]
    by_cases h1 : 1 < counts idx
    · simp [h1, asplit_labels]
    · simp [h1]
      omega
  · rw [if_neg (by tauto)]
    simp
    omega

lemma abranches_out {aflag : ℕ → Bool} {counts : ℕ → ℕ} {n idx : ℕ}
    (h : ¬ idx < n) :
    abranches aflag counts n idx = [] := by
  rw [abranches, if_neg (by tauto)]

lemma getD_of_get? {α : Type} {l : List α} {n : ℕ} {a d : α}
    (h : l.get? n = some a) : l.getD n d = a := by
  induction l generalizing n with
  | nil => cases h
  | cons x xs ih =>
    cases n with
    | zero =>
      simp at h
      simp [List.getD, h]
    | succ m =>
      simp at h
      simpa [List.getD] using ih (by simpa using h)

/-- Audio lines emitted for one segment are atrim or silence lines: never a
concatenation and never a video trim. -/
lemma seg_audio_shape {aflag synth : Bool} {branches : List String}
    {cursor src_idx : ℕ} {s e d : ℚ} {i : ℕ} {alines : List FilterLine}
    (h : seg_audio aflag synth branches cursor src_idx s e d i
      = Except.ok alines) :
    ∀ x ∈ alines, x.is_concat = false ∧ x.vtrim_input = none
      ∧ x.concat_data = none := by
  intro x hx
  rw [seg_audio] at h
  by_cases h1 : aflag = true
  · rw [if_pos h1] at h
    by_cases h2 : branches = []
    · rw [if_pos h2] at h
      cases h
    · rw [if_neg h2] at h
      cases hg : branches.get? cursor with
      | none => rw [hg] at h; cases h
      | some abr =>
        rw [hg] at h
        obtain rfl := (Except.ok.inj h).symm
        rcases List.mem_singleton.mp hx with rfl
        exact ⟨rfl, rfl, rfl⟩
  · rw [if_neg h1] at h
    by_cases h3 : synth = true
    · rw [if_pos h3] at h
      obtain rfl := (Except.ok.inj h).symm
      rcases List.mem_singleton.mp hx with rfl
      exact ⟨rfl, rfl, rfl⟩
    · rw [if_neg h3] at h
      cases h

/-- Characterization of a successful segment loop: the concat inputs are
`[v{i}][a{i}]` in enumeration order, no loop line is a concatenation node,
and the video-trim inputs consume branches at the running cursors. -/
lemma seg_loop_spec (w h : ℕ) (aflag : ℕ → Bool) (synth : Bool)
    (vB aB : ℕ → List String) :
    ∀ (segs : List SegPayload) (i : ℕ) (cv ca : ℕ → ℕ)
      (lines : List FilterLine) (pairs : List (String × String)),
      seg_loop w h aflag synth vB aB segs i cv ca = Except.ok (lines, pairs) →
      pairs = (List.range segs.length).map
        (fun j => ("v" ++ toString (i + j), "a" ++ toString (i + j)))
      ∧ (∀ x ∈ lines, x.is_concat = false ∧ x.concat_data = none)
      ∧ lines.filterMap FilterLine.vtrim_input = vtrim_spec vB segs cv := by
  intro segs
  induction segs with
  | nil =>
    intro i cv ca lines pairs hok
    rw [seg_loop] at hok
    cases hok
    refine ⟨by simp, by simp, by simp [vtrim_spec]⟩
  | cons seg rest ih =>
    intro i cv ca lines pairs hok
    simp only [seg_loop] at hok
    by_cases hvb : vB seg.src_index = []
    · rw [if_pos hvb] at hok
      cases hok
    · rw [if_neg hvb] at hok
      cases hg : (vB seg.src_index).get? (cv seg.src_index) with
      | none => rw [hg] at hok; cases hok
      | some vbr =>
        rw [hg] at hok
        cases ha : seg_audio (aflag seg.src_index) synth (aB seg.src_index)
            (ca seg.src_index) seg.src_index seg.in_
            (if seg.out < seg.in_ then seg.in_ else seg.out)
            (max 0 ((if seg.out < seg.in_ then seg.in_ else seg.out) - seg.in_))
            i with
        | error e => rw [ha] at hok; cases hok
        | ok alines =>
          rw [ha] at hok
          cases hrest : seg_loop w h aflag synth vB aB rest (i + 1)
              (bump cv seg.src_index)
              (if aflag seg.src_index then bump ca seg.src_index else ca) with
          | error e => rw [hrest] at hok; cases hok
          | ok lp =>
            obtain ⟨ls, ps⟩ := lp
            rw [hrest] at hok
            cases hok
            obtain ⟨ihp, ihshape, ihvtrim⟩ :=
              ih (i + 1) (bump cv seg.src_index) _ ls ps hrest
            refine ⟨?_, ?_, ?_⟩
            · rw [ihp, List.length_cons, List.range_succ_eq_map,
                List.map_cons, List.map_map]
              refine congrArg₂ _ (by simp) ?_
              apply List.map_congr_left
              intro j _
              have : i + 1 + j = i + (j + 1) := by omega
              simp [Function.comp, this]
            · intro x hx
              rcases List.mem_append.mp hx with hx | hx
              · rcases List.mem_append.mp hx with hx | hx
                · rcases List.mem_cons.mp hx with rfl | hx
                  · exact ⟨rfl, rfl⟩
                  · rcases List.mem_singleton.mp hx with rfl
                    exact ⟨rfl, rfl⟩
                · obtain ⟨hc, _, hd⟩ := seg_audio_shape ha x hx
                  exact ⟨hc, hd⟩
              · exact ihshape x hx
            · rw [List.filterMap_append, List.filterMap_append]
              have h1 : List.filterMap FilterLine.vtrim_input
                  [FilterLine.vtrim vbr seg.in_
                    (if seg.out < seg.in_ then seg.in_ else seg.out)
                    ("vtrim" ++ toString i),
                   FilterLine.vscale ("vtrim" ++ toString i) w h
                    ("v" ++ toString i)] = [vbr] := rfl
              have h2 : List.filterMap FilterLine.vtrim_input alines = [] :=
                List.filterMap_eq_nil_iff.mpr
                  (fun x hx => (seg_audio_shape ha x hx).2.1)
              rw [h1, h2, ihvtrim, vtrim_spec, getD_of_get? hg]
              simp

/-- Cursor-range invariant: the segment loop with silence synthesis enabled
always succeeds when every cursor plus the remaining usage of its source
fits within the available branches. -/
lemma seg_loop_ok (w h : ℕ) (aflag : ℕ → Bool) (vB aB : ℕ → List String) :
    ∀ (segs : List SegPayload) (i : ℕ) (cv ca : ℕ → ℕ),
      (∀ idx, cv idx + usage_count segs idx ≤ (vB idx).length) →
      (∀ idx, aflag idx = true → ca idx + usage_count segs idx ≤ (aB idx).length) →
      ∃ out, seg_loop w h aflag true vB aB segs i cv ca = Except.ok out := by
  intro segs
  induction segs with
  | nil =>
    intro i cv ca _ _
    exact ⟨([], []), rfl⟩
  | cons seg rest ih =>
    intro i cv ca hv ha
    have hcount : usage_count (seg :: rest) seg.src_index
        = usage_count rest seg.src_index + 1 := usage_count_cons_self rfl
    have hvlt : cv seg.src_index < (vB seg.src_index).length := by
      have := hv seg.src_index
      rw [hcount] at this
      omega
    have hvb : ¬ vB seg.src_index = [] := by
      intro hnil
      rw [hnil] at hvlt
      simp at hvlt
    obtain ⟨vbr, hg⟩ : ∃ vbr,
        (vB seg.src_index).get? (cv seg.src_index) = some vbr := by
      cases hg : (vB seg.src_index).get? (cv seg.src_index) with
      | none =>
        have := List.get?_eq_none.mp hg
        omega
      | some v => exact ⟨v, rfl⟩
    obtain ⟨alines, haud⟩ : ∃ alines,
        seg_audio (aflag seg.src_index) true (aB seg.src_index)
          (ca seg.src_index) seg.src_index seg.in_
          (if seg.out < seg.in_ then seg.in_ else seg.out)
          (max 0 ((if seg.out < seg.in_ then seg.in_ else seg.out) - seg.in_))
          i = Except.ok alines := by
      by_cases hf : aflag seg.src_index = true
      · have halt : ca seg.src_index < (aB seg.src_index).length := by
          have := ha seg.src_index hf
          rw [hcount] at this
          omega
        have hab : ¬ aB seg.src_index = [] := by
          intro hnil
          rw [hnil] at halt
          simp at halt
        obtain ⟨abr, hga⟩ : ∃ abr,
            (aB seg.src_index).get? (ca seg.src_index) = some abr := by
          cases hga : (aB seg.src_index).get? (ca seg.src_index) with
          | none =>
            have := List.get?_eq_none.mp hga
            omega
          | some v => exact ⟨v, rfl⟩
        exact ⟨_, by rw [seg_audio, if_pos hf, if_neg hab, hga]⟩
      · refine ⟨[FilterLine.silence
          (max 0 ((if seg.out < seg.in_ then seg.in_ else seg.out) - seg.in_))
          ("a" ++ toString i)], ?_⟩
        rw [seg_audio, if_neg hf, if_pos rfl]
    have hv' : ∀ idx,
        (bump cv seg.src_index) idx + usage_count rest idx ≤ (vB idx).length := by
      intro idx
      by_cases hidx : idx = seg.src_index
      · subst hidx
        have hthis := hv seg.src_index
        rw [hcount] at hthis
        simp only [bump, eq_self_iff_true, if_true]
        omega
      · have hthis := hv idx
        rw [usage_count_cons_ne (fun hh => hidx hh.symm)] at hthis
        simpa [bump, hidx] using hthis
    have ha' : ∀ idx, aflag idx = true →
        (if aflag seg.src_index then bump ca seg.src_index else ca) idx
          + usage_count rest idx ≤ (aB idx).length := by
      intro idx hf
      by_cases hflag : aflag seg.src_index = true
      · rw [if_pos hflag]
        by_cases hidx : idx = seg.src_index
        · subst hidx
          have hthis := ha seg.src_index hf
          rw [hcount] at hthis
          simp only [bump, eq_self_iff_true, if_true]
          omega
        · have hthis := ha idx hf
          rw [usage_count_cons_ne (fun hh => hidx hh.symm)] at hthis
          simpa [bump, hidx] using hthis
      · rw [if_neg hflag]
        by_cases hidx : idx = seg.src_index
        · subst hidx
          exact absurd hf hflag
        · have hthis := ha idx hf
          rw [usage_count_cons_ne (fun hh => hidx hh.symm)] at hthis
          exact hthis
    obtain ⟨out, hrest⟩ := ih (i + 1) _ _ hv' ha'
    obtain ⟨ls, ps⟩ := out
    refine ⟨([FilterLine.vtrim vbr seg.in_
        (if seg.out < seg.in_ then seg.in_ else seg.out)
        ("vtrim" ++ toString i),
      FilterLine.vscale ("vtrim" ++ toString i) w h ("v" ++ toString i)]
        ++ alines ++ ls,
      ("v" ++ toString i, "a" ++ toString i) :: ps), ?_⟩
    simp only [seg_loop]
    rw [if_neg hvb, hg, haud, hrest]

/-- The cursor-threaded branch choice equals the static formula: the `j`-th
segment consumes its source's branch number `cv + count_before`. -/
lemma vtrim_spec_eq (vB : ℕ → List String) :
    ∀ (segs : List SegPayload) (cv : ℕ → ℕ),
      vtrim_spec vB segs cv = (List.range segs.length).map
        (fun j => (vB (src_at segs j)).getD
          (cv (src_at segs j) + count_before segs j) "") := by
  intro segs
  induction segs with
  | nil => intro cv; simp [vtrim_spec]
  | cons s rest ih =>
    intro cv
    rw [vtrim_spec, ih (bump cv s.src_index)]
    rw [List.length_cons, List.range_succ_eq_map, List.map_cons, List.map_map]
    refine congrArg₂ _ ?_ ?_
    · simp [src_at, count_before]
    · apply List.map_congr_left
      intro j _
      have hsa : src_at (s :: rest) (j + 1) = src_at rest j := by
        simp [src_at]
      have hcb : count_before (s :: rest) (j + 1)
          = (if s.src_index = src_at rest j then 1 else 0)
            + count_before rest j := by
        rw [count_before, count_before, List.take_succ_cons, List.filter_cons,
          hsa]
        by_cases hss : s.src_index = src_at rest j
        · simp [hss, Nat.add_comm]
        · simp [hss]
      simp only [Function.comp, hsa, hcb]
      by_cases hss : s.src_index = src_at rest j
      · rw [if_pos hss]
        have hb : bump cv s.src_index (src_at rest j)
            = cv (src_at rest j) + 1 := by
          simp [bump, hss.symm]
        rw [hb]
        refine congrArg₂ _ ?_ rfl
        omega
      · rw [if_neg hss]
        have hb : bump cv s.src_index (src_at rest j) = cv (src_at rest j) := by
          simp only [bump]
          rw [if_neg (fun hh : src_at rest j = s.src_index => hss hh.symm)]
        rw [hb]
        refine congrArg₂ _ ?_ rfl
        omega

/-- The per-source normalization/split header contains no concatenation and
no video-trim lines. -/
lemma input_lines_shape (aflag : ℕ → Bool) (counts : ℕ → ℕ) (n : ℕ) :
    ∀ x ∈ input_lines aflag counts n,
      x.is_concat = false ∧ x.vtrim_input = none ∧ x.concat_data = none := by
  intro x hx
  rw [input_lines] at hx
  obtain ⟨idx, _, hx⟩ := List.mem_flatMap.mp hx
  by_cases h0 : counts idx = 0
  · rw [if_pos h0] at hx
    cases hx
  · rw [if_neg h0] at hx
    rcases List.mem_append.mp hx with hx | hx
    · rcases List.mem_append.mp hx with hx | hx
      · rcases List.mem_singleton.mp hx with rfl
        exact ⟨rfl, rfl, rfl⟩
      · by_cases h1 : 1 < counts idx
        · rw [if_pos h1] at hx
          rcases List.mem_singleton.mp hx with rfl
          exact ⟨rfl, rfl, rfl⟩
        · rw [if_neg h1] at hx
          cases hx
    · by_cases hf : aflag idx = true
      · rw [if_pos hf] at hx
        rcases List.mem_append.mp hx with hx | hx
        · rcases List.mem_singleton.mp hx with rfl
          exact ⟨rfl, rfl, rfl⟩
        · by_cases h1 : 1 < counts idx
          · rw [if_pos h1] at hx
            rcases List.mem_singleton.mp hx with rfl
            exact ⟨rfl, rfl, rfl⟩
          · rw [if_neg h1] at hx
            cases hx
      · rw [if_neg hf] at hx
        cases hx

/-- Claim C9: whenever `build_filter_complex` succeeds on a non-empty
segment list, the graph contains exactly one concatenation node, that node's
arity is the segment count and its inputs are the `[v{j}][a{j}]` pairs in
EDL order, and the `j`-th segment's video trim consumes its source's branch
number `count_before segs j` — the `N`-th branch in encounter order for the
`N`-th same-source segment. -/
theorem C9_filter_graph (segs : List SegPayload) (inputs_count : ℕ)
    (logo_idx : Option ℕ) (width height : ℕ) (source_audio : Option (ℕ → Bool))
    (corner : String) (safe : ℚ) (ln synth : Bool)
    (lines : List FilterLine) (vl al : String)
    (_hne : segs ≠ [])
    (hok : build_filter_complex segs inputs_count logo_idx width height
      source_audio corner safe ln synth = Except.ok (lines, vl, al)) :
    lines.countP FilterLine.is_concat = 1
    ∧ lines.filterMap FilterLine.concat_data
        = [((List.range segs.length).map
            (fun j => ("v" ++ toString j, "a" ++ toString j)), segs.length)]
    ∧ lines.filterMap FilterLine.vtrim_input
        = (List.range segs.length).map (fun j =>
            (vbranches (usage_count segs) inputs_count (src_at segs j)).getD
              (count_before segs j) "") := by
  simp only [build_filter_complex] at hok
  cases hsl : seg_loop width height (source_audio.getD fun _ => true) synth
      (vbranches (usage_count segs) inputs_count)
      (abranches (source_audio.getD fun _ => true) (usage_count segs)
        inputs_count)
      segs 0 (fun _ => 0) (fun _ => 0) with
  | error e =>
    rw [hsl] at hok
    cases hok
  | ok lp =>
    obtain ⟨segls, pairs⟩ := lp
    rw [hsl] at hok
    obtain ⟨hp, hshape, hvt⟩ := seg_loop_spec width height _ synth _ _ segs 0
      (fun _ => 0) (fun _ => 0) segls pairs hsl
    cases hok
    have hin1 : (input_lines (source_audio.getD fun _ => true)
        (usage_count segs) inputs_count).countP FilterLine.is_concat = 0 :=
      List.countP_eq_zero.mpr
        (fun x hx => by simp [(input_lines_shape _ _ _ x hx).1])
    have hin2 : (input_lines (source_audio.getD fun _ => true)
        (usage_count segs) inputs_count).filterMap FilterLine.concat_data
        = [] :=
      List.filterMap_eq_nil_iff.mpr
        (fun x hx => (input_lines_shape _ _ _ x hx).2.2)
    have hin3 : (input_lines (source_audio.getD fun _ => true)
        (usage_count segs) inputs_count).filterMap FilterLine.vtrim_input
        = [] :=
      List.filterMap_eq_nil_iff.mpr
        (fun x hx => (input_lines_shape _ _ _ x hx).2.1)
    have hsg1 : segls.countP FilterLine.is_concat = 0 :=
      List.countP_eq_zero.mpr (fun x hx => by simp [(hshape x hx).1])
    have hsg2 : segls.filterMap FilterLine.concat_data = [] :=
      List.filterMap_eq_nil_iff.mpr (fun x hx => (hshape x hx).2)
    have hvt' : segls.filterMap FilterLine.vtrim_input
        = (List.range segs.length).map (fun j =>
            (vbranches (usage_count segs) inputs_count (src_at segs j)).getD
              (count_before segs j) "") := by
      rw [hvt, vtrim_spec_eq]
      simp
    refine ⟨?_, ?_, ?_⟩
    · rcases logo_idx with _ | li <;> cases ln <;>
        simp [List.countP_append, hin1, hsg1, FilterLine.is_concat,
          List.countP_cons, List.countP_nil]
    · rcases logo_idx with _ | li <;> cases ln <;>
        simp [List.filterMap_append, hin2, hsg2, FilterLine.concat_data, hp]
    · rcases logo_idx with _ | li <;> cases ln <;>
        simp [List.filterMap_append, hin3, hvt', FilterLine.vtrim_input]

lemma first_occur_foldl_mem :
    ∀ (l acc : List String) (x : String), (x ∈ acc ∨ x ∈ l) →
      x ∈ l.foldl (fun acc s => if s ∈ acc then acc else acc ++ [s]) acc := by
  intro l
  induction l with
  | nil =>
    intro acc x h
    rcases h with h | h
    · simpa using h
    · cases h
  | cons y ys ih =>
    intro acc x h
    rw [List.foldl_cons]
    apply ih
    rcases h with h | h
    · left
      split_ifs
      · exact h
      · exact List.mem_append_left _ h
    · rcases List.mem_cons.mp h with rfl | h
      · left
        split_ifs with hy
        · exact hy
        · exact List.mem_append_right _ (by simp)
      · exact Or.inr h

lemma first_occur_mem {x : String} {l : List String} (h : x ∈ l) :
    x ∈ first_occur l :=
  first_occur_foldl_mem l [] x (Or.inr h)

/-- With silence synthesis enabled (the `build_commands` path) and all
segment source indices in range, `build_filter_complex` always succeeds. -/
lemma bfc_ok (segs : List SegPayload) (n : ℕ) (logo : Option ℕ) (w h : ℕ)
    (sa : Option (ℕ → Bool)) (corner : String) (safe : ℚ) (ln : Bool)
    (hrange : ∀ s ∈ segs, s.src_index < n) :
    ∃ out, build_filter_complex segs n logo w h sa corner safe ln true
      = Except.ok out := by
  have husage : ∀ idx, ¬ idx < n → usage_count segs idx = 0 := by
    intro idx hidx
    rw [usage_count, List.length_eq_zero]
    rw [List.filter_eq_nil_iff]
    intro s hs
    simp only [decide_eq_true_eq]
    intro heq
    exact hidx (heq ▸ hrange s hs)
  have hv : ∀ idx, (fun _ => 0 : ℕ → ℕ) idx + usage_count segs idx
      ≤ ((vbranches (usage_count segs) n) idx).length := by
    intro idx
    by_cases hidx : idx < n
    · rw [vbranches_length hidx]
      simp
    · rw [vbranches_out hidx]
      simp [husage idx hidx]
  have ha : ∀ idx, (sa.getD fun _ => true) idx = true →
      (fun _ => 0 : ℕ → ℕ) idx + usage_count segs idx
        ≤ ((abranches (sa.getD fun _ => true) (usage_count segs) n) idx).length := by
    intro idx hf
    by_cases hidx : idx < n
    · rw [abranches_length hidx hf]
      simp
    · rw [abranches_out hidx]
      simp [husage idx hidx]
  obtain ⟨out, hout⟩ := seg_loop_ok w h (sa.getD fun _ => true)
    (vbranches (usage_count segs) n)
    (abranches (sa.getD fun _ => true) (usage_count segs) n)
    segs 0 (fun _ => 0) (fun _ => 0) hv ha
  obtain ⟨segls, pairs⟩ := out
  simp only [build_filter_complex]
  rw [hout]
  exact ⟨_, rfl⟩

/-- `_build_single_command` never fails: every segment's source is among the
ordered sources, so the graph build succeeds. -/
lemma build_single_command_ok (edl : EDL) (branding : BrandingSettings)
    (w h : ℕ) (out_path : String) (logo : Bool) (audio : String → Bool) :
    ∃ cmd, build_single_command edl branding w h out_path logo audio
      = Except.ok cmd := by
  simp only [build_single_command]
  have hrange : ∀ p ∈ edl.segments.map (fun s =>
      SegPayload.mk (List.indexOf s.src (first_occur (edl.segments.map Segment.src)))
        s.start s.stop),
      p.src_index < (first_occur (edl.segments.map Segment.src)).length := by
    intro p hp
    obtain ⟨s, hs, rfl⟩ := List.mem_map.mp hp
    exact List.indexOf_lt_length.mpr
      (first_occur_mem (List.mem_map_of_mem _ hs))
  obtain ⟨o, ho⟩ := bfc_ok _ _ _ w h _ branding.logo_corner branding.safe_area
    true hrange
  rw [ho]
  obtain ⟨lines, vl, al⟩ := o
  exact ⟨_, rfl⟩

lemma lookup_eq_none_of {β : Type} {m : List (String × β)} {r : String}
    (h : ∀ p ∈ m, p.1 ≠ r) : m.lookup r = none := by
  induction m with
  | nil => rfl
  | cons p rest ih =>
    obtain ⟨k, v⟩ := p
    have hk : ¬ (r == k) = true := by
      intro hbeq
      exact h (k, v) (by simp) (by simpa [eq_comm] using (beq_iff_eq.mp hbeq))
    simp only [List.lookup, Bool.not_eq_true] at hk ⊢
    rw [hk]
    exact ih (fun q hq => h q (List.mem_cons_of_mem _ hq))

/-- The accumulator invariant of the per-ratio loop of `build_commands`:
the fold succeeds and every produced entry's ratio is in the dimension
table. -/
lemma build_commands_fold (edl : EDL) (config : Config) (stub : String)
    (logo : Bool) (audio : String → Bool) :
    ∀ (ds : List String) (acc : List (String × RenderCommand)),
      (∀ p ∈ acc, (ASPECT_DIMENSIONS.lookup p.1).isSome = true) →
      ∃ m, (ds.foldlM
          (fun acc ratio =>
            match ASPECT_DIMENSIONS.lookup ratio with
            | none => Except.ok acc
            | some (w, h) =>
              (build_single_command edl config.branding w h
                (derive_output_path stub ratio) logo audio).map
                (fun cmd => acc ++ [(ratio, cmd)]))
          acc) = Except.ok m
        ∧ ∀ p ∈ m, (ASPECT_DIMENSIONS.lookup p.1).isSome = true := by
  intro ds
  induction ds with
  | nil =>
    intro acc hacc
    exact ⟨acc, rfl, hacc⟩
  | cons d rest ih =>
    intro acc hacc
    rw [List.foldlM_cons]
    cases hld : ASPECT_DIMENSIONS.lookup d with
    | none =>
      obtain ⟨m, hm, hkeys⟩ := ih acc hacc
      refine ⟨m, ?_, hkeys⟩
      simp only [hld]
      simpa using hm
    | some wh =>
      obtain ⟨w, h⟩ := wh
      obtain ⟨cmd, hcmd⟩ := build_single_command_ok edl config.branding w h
        (derive_output_path stub d) logo audio
      have hd : (ASPECT_DIMENSIONS.lookup d).isSome = true := by
        rw [hld]
        rfl
      have hacc' : ∀ p ∈ acc ++ [(d, cmd)],
          (ASPECT_DIMENSIONS.lookup p.1).isSome = true := by
        intro p hp
        rcases List.mem_append.mp hp with hp | hp
        · exact hacc p hp
        · rcases List.mem_singleton.mp hp with rfl
          exact hd
      obtain ⟨m, hm, hkeys⟩ := ih (acc ++ [(d, cmd)]) hacc'
      refine ⟨m, ?_, hkeys⟩
      simp only [hld, hcmd]
      simpa [Except.map] using hm

/-- Claim C8: `build_commands` raises `ValueError` on an EDL with no
segments; for a non-empty EDL it succeeds and a deliverable ratio outside
the fixed dimension table is skipped with no entry in the result and no
error. -/
theorem C8_build_commands (edl : EDL) (config : Config) (stub : String)
    (logo : Bool) (audio : String → Bool) :
    (edl.segments = [] → build_commands edl config stub logo audio
      = Except.error "EDL contains no segments to render")
    ∧ (edl.segments ≠ [] → ∃ m,
        build_commands edl config stub logo audio = Except.ok m
        ∧ ∀ r : String, ASPECT_DIMENSIONS.lookup r = none →
            m.lookup r = none) := by
  constructor
  · intro h
    rw [build_commands, if_pos h]
  · intro h
    rw [build_commands, if_neg h]
    obtain ⟨m, hm, hkeys⟩ := build_commands_fold edl config stub logo audio
      config.deliverables [] (by simp)
    refine ⟨m, hm, ?_⟩
    intro r hr
    apply lookup_eq_none_of
    intro p hp heq
    have := hkeys p hp
    rw [heq, hr] at this
    cases this

/-- A two-source payload: segment 0 uses input 0, segment 1 uses input 1. -/
def c9segs : List SegPayload := [⟨0, 0, 5/2⟩, ⟨1, 5, 8⟩]

theorem C9_witness :
    ∃ (lines : List FilterLine) (vl al : String),
      build_filter_complex c9segs 2 none 1080 1920 none "top_right" (1/20)
        false true = Except.ok (lines, vl, al)
      ∧ lines.countP FilterLine.is_concat = 1
      ∧ lines.filterMap FilterLine.concat_data
          = [((List.range c9segs.length).map
              (fun j => ("v" ++ toString j, "a" ++ toString j)),
              c9segs.length)]
      ∧ lines.filterMap FilterLine.vtrim_input
          = (List.range c9segs.length).map (fun j =>
              (vbranches (usage_count c9segs) 2 (src_at c9segs j)).getD
                (count_before c9segs j) "") := by
  have hrange : ∀ s ∈ c9segs, s.src_index < 2 := by
    intro s hs
    simp only [c9segs, List.mem_cons, List.not_mem_nil, or_false] at hs
    rcases hs with rfl | rfl <;> decide
  obtain ⟨out, hout⟩ := bfc_ok c9segs 2 none 1080 1920 none "top_right"
    (1/20) false hrange
  obtain ⟨lines, vl, al⟩ := out
  have hne : c9segs ≠ [] := by simp [c9segs]
  exact ⟨lines, vl, al, hout,
    C9_filter_graph c9segs 2 none 1080 1920 none "top_right" (1/20) false
      true lines vl al hne hout⟩

/-- A one-segment EDL. -/
def c8edl : EDL :=
  { project := "p", variant := "v", seed := 1, max_duration := 60,
    clip_min := 6/5, clip_max := 4,
    segments := [{ src := "a.mp4", start := 0, stop := 2, score := 1,
                   tags := [], camera := none }],
    metadata := [] }

/-- The same EDL with its segment list emptied. -/
def c8empty : EDL := { c8edl with segments := [] }

/-- Defaults, with deliverables naming one supported and one unsupported
ratio. -/
def c8cfg : Config := { default_config with deliverables := ["9:16", "4:3"] }

theorem C8_witness :
    build_commands c8empty c8cfg "out.mp4" false (fun _ => false)
      = Except.error "EDL contains no segments to render"
    ∧ ∃ m, build_commands c8edl c8cfg "out.mp4" false (fun _ => false)
        = Except.ok m ∧ m.lookup "4:3" = none := by
  refine ⟨(C8_build_commands c8empty c8cfg "out.mp4" false
    (fun _ => false)).1 rfl, ?_⟩
  obtain ⟨m, hm, hnone⟩ := (C8_build_commands c8edl c8cfg "out.mp4" false
    (fun _ => false)).2 (by simp [c8edl])
  exact ⟨m, hm, hnone "4:3" (by rfl)⟩

end AMP
